import Mathlib

/-!
# CPU-8Bit compiler model: verification of the specification's claims

The repository ships example programs in a small C-like language for an
8-bit CPU (`src/complier/examples/calculator.c`,
`src/examples/c-like/tutorials/variables.c`) together with a specification
of the toolchain (lexer, parser, type checker, code generator for an 8-bit
target ISA).  The compiler sources themselves are not part of the visible
tree, so the pipeline below is modelled from the specification's words and
the claims are settled against that model; the two example programs are
embedded as abstract syntax trees and compiled by the model.
-/

namespace CPU8

/-! ## Lexer: numeric literals

Modelled from the spec: the lexer is not under `src/`; §4.1 says numeric
literals are decimal digit sequences, `0x`-prefixed hexadecimal and
`0b`-prefixed binary, all resolved to an unsigned magnitude that must fit
in 8 bits, a too-large literal being lex error `LiteralOverflow`. -/

inductive LexError where
  | LiteralOverflow
  | UnexpectedCharacter
  deriving DecidableEq, Repr

/-- Value of one digit character, hex digits included. -/
def digitVal (c : Char) : Option Nat :=
  if '0' ≤ c ∧ c ≤ '9' then some (c.toNat - '0'.toNat)
  else if 'a' ≤ c ∧ c ≤ 'f' then some (c.toNat - 'a'.toNat + 10)
  else if 'A' ≤ c ∧ c ≤ 'F' then some (c.toNat - 'A'.toNat + 10)
  else none

/-- Is `c` a digit of the given radix? -/
def isRadixDigit (radix : Nat) (c : Char) : Bool :=
  match digitVal c with
  | some v => v < radix
  | none => false

/-- Accumulate a digit string left-to-right in the given radix. -/
def scanDigits (radix : Nat) (cs : List Char) : Nat :=
  cs.foldl (fun acc c => acc * radix + ((digitVal c).getD 0)) 0

/-- Split a literal's characters into its radix and its digit part:
`0x…` is hexadecimal, `0b…` is binary, anything else decimal. -/
def literalRadix (cs : List Char) : Nat × List Char :=
  match cs with
  | '0' :: 'x' :: rest => (16, rest)
  | '0' :: 'b' :: rest => (2, rest)
  | _ => (10, cs)

/-- The unsigned magnitude a literal token denotes. -/
def literalMagnitude (cs : List Char) : Nat :=
  scanDigits (literalRadix cs).1 (literalRadix cs).2

/-- Lex one numeric literal: resolve the magnitude and check that it fits
in 8 bits; a magnitude above 255 is `LiteralOverflow`. -/
def lexNumber (cs : List Char) : Except LexError Nat :=
  let (radix, digits) := literalRadix cs
  if digits ≠ [] ∧ digits.all (isRadixDigit radix) then
    let m := scanDigits radix digits
    if m ≤ 255 then .ok m else .error .LiteralOverflow
  else .error .UnexpectedCharacter

/-! ## Types -/

/-- The language's four types (spec §3). -/
inductive Ty where
  | uint8
  | int8
  | bool
  | void
  deriving DecidableEq, Repr

/-! ## Abstract syntax

Modelled from the spec: parser and AST are described in §3 and §4.2; the
embedded programs below are the ASTs of the two example source files.
Comparison nodes carry the signedness annotation the type checker infers
(spec §3: "each expression node carries an inferred type once checked"). -/

/-- Comparison operators. -/
inductive CmpKind where
  | ceq | cne | clt | cle
  deriving DecidableEq, Repr

/-- Arithmetic/bitwise binary operators. -/
inductive BinK where
  | badd | bsub | band | bor | bxor
  deriving DecidableEq, Repr

/-- Expressions.  Port intrinsic `input(p)` appears with its constant port
(spec §4.3 requires the port argument to be a compile-time constant);
function calls occur at statement level (`x = f(args)`), as in both
example programs. -/
inductive Expr where
  | lit (n : Nat)
  | blit (b : Bool)
  | var (x : String)
  | bin (k : BinK) (a b : Expr)
  | cmp (k : CmpKind) (sgn : Bool) (a b : Expr)
  | lognot (e : Expr)
  | bitnot (e : Expr)
  | neg (e : Expr)
  | land (a b : Expr)
  | lor (a b : Expr)
  | tern (c a b : Expr)
  | castE (t : Ty) (e : Expr)
  | inputE (p : Nat)
  deriving DecidableEq, Repr

/-- Statements.  `seq`/`skip` represent statement lists; `decl`/`declU`
are declarations with and without initializer; `callAssign` is the
statement form `x = f(args);`. -/
inductive Stmt where
  | skip
  | seq (a b : Stmt)
  | decl (x : String) (t : Ty) (e : Expr)
  | declU (x : String) (t : Ty)
  | assign (x : String) (e : Expr)
  | callAssign (x : String) (f : String) (args : List Expr)
  | ifS (c : Expr) (t e : Stmt)
  | forS (x : String) (t : Ty) (e0 : Expr) (cond : Expr) (stp body : Stmt)
  | out (p : Nat) (e : Expr)
  | ret (e : Expr)
  | retV
  | haltS
  deriving DecidableEq, Repr

/-- A function declaration (spec §3). -/
structure FuncDecl where
  name : String
  params : List (String × Ty)
  retTy : Ty
  body : Stmt
  deriving DecidableEq, Repr

/-! ## Semantic analyzer / type checker

Modelled from the spec: §4.3 gives the scope/type/conversion/overflow and
return-coverage rules; the checker itself is not under `src/`. -/

inductive SemErr where
  | UndefinedSymbol
  | DuplicateSymbol
  | TypeMismatch
  | ConstantOverflow
  | MissingReturn
  | BadPortArg
  | VoidMisuse
  deriving DecidableEq, Repr

/-- Reserved intrinsic names; user redeclaration is `DuplicateSymbol`
(spec §9). -/
def reservedNames : List String := ["input", "output", "write_port", "halt"]

/-- Type inference for expressions (spec §4.3): same-type integer
arithmetic, `bool` operands for logical operators, comparisons yield
`bool`, casts always succeed, `input` yields `uint8`. -/
def inferTy (ctx : List (String × Ty)) : Expr → Except SemErr Ty
  | .lit _ => .ok .uint8
  | .blit _ => .ok .bool
  | .var x =>
      match ctx.lookup x with
      | some t => .ok t
      | none => .error .UndefinedSymbol
  | .bin _ a b => do
      let ta ← inferTy ctx a
      let tb ← inferTy ctx b
      if (ta = .uint8 ∨ ta = .int8) ∧ tb = ta then .ok ta else .error .TypeMismatch
  | .cmp _ sgn a b => do
      let ta ← inferTy ctx a
      let tb ← inferTy ctx b
      if tb = ta ∧ ta ≠ .void ∧ sgn = decide (ta = .int8) then .ok .bool
      else .error .TypeMismatch
  | .lognot e => do
      let t ← inferTy ctx e
      if t = .bool then .ok .bool else .error .TypeMismatch
  | .bitnot e => do
      let t ← inferTy ctx e
      if t = .uint8 ∨ t = .int8 then .ok t else .error .TypeMismatch
  | .neg e => do
      let t ← inferTy ctx e
      if t = .uint8 ∨ t = .int8 then .ok t else .error .TypeMismatch
  | .land a b => do
      let ta ← inferTy ctx a
      let tb ← inferTy ctx b
      if ta = .bool ∧ tb = .bool then .ok .bool else .error .TypeMismatch
  | .lor a b => do
      let ta ← inferTy ctx a
      let tb ← inferTy ctx b
      if ta = .bool ∧ tb = .bool then .ok .bool else .error .TypeMismatch
  | .tern c a b => do
      let tc ← inferTy ctx c
      let ta ← inferTy ctx a
      let tb ← inferTy ctx b
      if tc = .bool ∧ tb = ta ∧ ta ≠ .void then .ok ta else .error .TypeMismatch
  | .castE t e => do
      let te ← inferTy ctx e
      if te ≠ .void ∧ t ≠ .void then .ok t else .error .VoidMisuse
  | .inputE p => if p < 256 then .ok .uint8 else .error .BadPortArg

/-- Does the mathematical value `v` fit the declared type's range? -/
def fitsTy : Ty → Int → Bool
  | .uint8, v => 0 ≤ v ∧ v ≤ 255
  | .int8, v => -128 ≤ v ∧ v ≤ 127
  | .bool, v => v = 0 ∨ v = 1
  | .void, _ => false

/-- Constant folding over the exact integers, for the compile-time
constant-overflow policy (spec §4.3). -/
def constFold : Expr → Option Int
  | .lit n => some n
  | .neg e => (constFold e).map (fun v => -v)
  | .bin .badd a b => (constFold a).bind fun va => (constFold b).map fun vb => va + vb
  | .bin .bsub a b => (constFold a).bind fun va => (constFold b).map fun vb => va - vb
  | _ => none

/-- Check an expression against a target type (spec §4.3): a constant
expression must fit the target's range exactly (`ConstantOverflow`
otherwise); a non-constant expression must have the target type after at
most the implicit `bool`→`uint8` conversion (`TypeMismatch` otherwise). -/
def checkAgainst (ctx : List (String × Ty)) (td : Ty) (e : Expr) : Except SemErr Unit :=
  match constFold e with
  | some v => if fitsTy td v then .ok () else .error .ConstantOverflow
  | none => do
      let te ← inferTy ctx e
      if te = td ∨ (te = .bool ∧ td = .uint8) then .ok () else .error .TypeMismatch

/-- Condition expressions must be `bool`. -/
def checkBool (ctx : List (String × Ty)) (e : Expr) : Except SemErr Unit := do
  let t ← inferTy ctx e
  if t = .bool then .ok () else .error .TypeMismatch

/-- Check call arguments against declared parameter types in order. -/
def checkArgs (ctx : List (String × Ty)) : List Ty → List Expr → Except SemErr Unit
  | [], [] => .ok ()
  | t :: ps, a :: rest => do
      checkAgainst ctx t a
      checkArgs ctx ps rest
  | _, _ => .error .TypeMismatch

/-- Function signature table: name to (parameter types, return type). -/
def FSigT := List (String × (List Ty × Ty))

/-- Statement checking; returns the scope extended by the statement's
declarations, so sequencing threads the scope forward. -/
def checkStmt (fs : FSigT) (rt : Ty) :
    List (String × Ty) → Stmt → Except SemErr (List (String × Ty))
  | ctx, .skip => .ok ctx
  | ctx, .seq a b => do
      let c1 ← checkStmt fs rt ctx a
      checkStmt fs rt c1 b
  | ctx, .decl x t e =>
      if x ∈ reservedNames ∨ (ctx.lookup x).isSome then .error .DuplicateSymbol
      else if t = .void then .error .VoidMisuse
      else do
        checkAgainst ctx t e
        .ok ((x, t) :: ctx)
  | ctx, .declU x t =>
      if x ∈ reservedNames ∨ (ctx.lookup x).isSome then .error .DuplicateSymbol
      else if t = .void then .error .VoidMisuse
      else .ok ((x, t) :: ctx)
  | ctx, .assign x e =>
      match ctx.lookup x with
      | none => .error .UndefinedSymbol
      | some t => do
          checkAgainst ctx t e
          .ok ctx
  | ctx, .callAssign x f args =>
      match ctx.lookup x, (List.lookup f fs : Option (List Ty × Ty)) with
      | _, none => .error .UndefinedSymbol
      | none, _ => .error .UndefinedSymbol
      | some t, some (ps, rty) =>
          if rty = .void then .error .VoidMisuse
          else if args.length = ps.length then do
            checkArgs ctx ps args
            if rty = t ∨ (rty = .bool ∧ t = .uint8) then .ok ctx
            else .error .TypeMismatch
          else .error .TypeMismatch
  | ctx, .ifS c t e => do
      checkBool ctx c
      let _ ← checkStmt fs rt ctx t
      let _ ← checkStmt fs rt ctx e
      .ok ctx
  | ctx, .forS x t e0 cond stp body =>
      if x ∈ reservedNames then .error .DuplicateSymbol
      else if t = .void then .error .VoidMisuse
      else do
        checkAgainst ctx t e0
        checkBool ((x, t) :: ctx) cond
        let _ ← checkStmt fs rt ((x, t) :: ctx) stp
        let _ ← checkStmt fs rt ((x, t) :: ctx) body
        .ok ctx
  | ctx, .out p e =>
      if p < 256 then do
        checkAgainst ctx .uint8 e
        .ok ctx
      else .error .BadPortArg
  | ctx, .ret e =>
      if rt = .void then .error .VoidMisuse
      else do
        checkAgainst ctx rt e
        .ok ctx
  | ctx, .retV => if rt = .void then .ok ctx else .error .TypeMismatch
  | ctx, .haltS => .ok ctx

/-- The return-coverage analysis (spec §4.3): does every control path
through the statement end in a `return`?  A `for` loop may run zero
iterations, so it never counts; `halt` is not a `return`. -/
def stmtReturns : Stmt → Bool
  | .ret _ => true
  | .retV => true
  | .seq a b => stmtReturns a || stmtReturns b
  | .ifS _ t e => stmtReturns t && stmtReturns e
  | _ => false

/-- The `MissingReturn` check for one function body (spec §4.3): a
non-`void` function whose body does not return on every control path is
rejected. -/
def checkReturnCoverage (rt : Ty) (body : Stmt) : Except SemErr Unit :=
  if rt = .void then .ok ()
  else if stmtReturns body then .ok () else .error .MissingReturn

/-- Build the parameter scope, rejecting duplicate or reserved names. -/
def paramCtx : List (String × Ty) → Except SemErr (List (String × Ty))
  | [] => .ok []
  | (x, t) :: rest => do
      let c ← paramCtx rest
      if x ∈ reservedNames ∨ (c.lookup x).isSome then .error .DuplicateSymbol
      else if t = .void then .error .VoidMisuse
      else .ok ((x, t) :: c)

/-- Check one function: parameters, body, and return coverage. -/
def checkFunc (fs : FSigT) (f : FuncDecl) : Except SemErr Unit := do
  let ctx0 ← paramCtx f.params
  let _ ← checkStmt fs f.retTy ctx0 f.body
  checkReturnCoverage f.retTy f.body

/-- Signature collection, the spec's first pass (§4.3), so forward
references between functions resolve. -/
def sigsOf (p : List FuncDecl) : FSigT :=
  p.map fun f => (f.name, (f.params.map (·.2), f.retTy))

/-- Check every function of a program against the collected signatures. -/
def checkFuncs (fs : FSigT) : List FuncDecl → Except SemErr Unit
  | [] => .ok ()
  | f :: rest => do
      checkFunc fs f
      checkFuncs fs rest

/-- Whole-program semantic checking. -/
def checkProgram (p : List FuncDecl) : Except SemErr Unit :=
  checkFuncs (sigsOf p) p

/-! ## Control paths

A semantic notion of control path through a statement, independent of the
checker: a path records one Boolean decision per `if` encountered (and,
for a `for` loop, the zero-iteration path that skips the body).
`PathRun s ds r` holds when following decisions `ds` through `s` is a
complete control path, and `r` tells whether that path reached a
`return` before falling out of the statement. -/
inductive PathRun : Stmt → List Bool → Bool → Prop where
  | skip : PathRun .skip [] false
  | decl (x t e) : PathRun (.decl x t e) [] false
  | declU (x t) : PathRun (.declU x t) [] false
  | assign (x e) : PathRun (.assign x e) [] false
  | callAssign (x f args) : PathRun (.callAssign x f args) [] false
  | out (p e) : PathRun (.out p e) [] false
  | ret (e) : PathRun (.ret e) [] true
  | retV : PathRun .retV [] true
  | halt : PathRun .haltS [] false
  | seqRet {a ds} (b) : PathRun a ds true → PathRun (.seq a b) ds true
  | seqFall {a ds b es r} : PathRun a ds false → PathRun b es r →
      PathRun (.seq a b) (ds ++ es) r
  | ifT {t ds r} (c e) : PathRun t ds r → PathRun (.ifS c t e) (true :: ds) r
  | ifF {e ds r} (c t) : PathRun e ds r → PathRun (.ifS c t e) (false :: ds) r
  | forZero (x t e0 cond stp body) : PathRun (.forS x t e0 cond stp body) [] false

/-! ## The target machine

Modelled from the spec: §3 and §6 fix the instruction set (arithmetic,
bitwise, compare, branches, jump, call, return, load/store, port I/O,
halt) and the 8-bit two's-complement data model; the execution engine is
the external consumer of the stream, modelled here so the generated
code's runtime behaviour can be stated.  The machine additionally logs
every executed instruction index (`trace`) and every port event
(`events`), which the temporal claims quantify over. -/

/-- 8-bit wraparound addition. -/
def byteAdd (a b : Nat) : Nat := (a + b) % 256

/-- 8-bit wraparound subtraction (two's complement). -/
def byteSub (a b : Nat) : Nat := (a + 256 - b % 256) % 256

/-- 8-bit bitwise complement. -/
def byteNot (a : Nat) : Nat := 255 - a % 256

/-- Read a byte as a signed two's-complement `int8` value. -/
def toInt8 (n : Nat) : Int :=
  if n % 256 < 128 then (n % 256 : Int) else (n % 256 : Int) - 256

/-- Encode an in-range signed value as its two's-complement byte. -/
def ofInt8 (z : Int) : Nat := (z % 256).toNat

/-- Does comparison `k` hold on two bytes, read signed when `sgn`? -/
def cmpHolds (k : CmpKind) (sgn : Bool) (a b : Nat) : Bool :=
  if sgn then
    match k with
    | .ceq => toInt8 a = toInt8 b
    | .cne => toInt8 a ≠ toInt8 b
    | .clt => toInt8 a < toInt8 b
    | .cle => toInt8 a ≤ toInt8 b
  else
    match k with
    | .ceq => a = b
    | .cne => a ≠ b
    | .clt => a < b
    | .cle => a ≤ b

/-- The target instructions (spec §6's closed opcode set).  Branch and
call targets are absolute instruction indices, the result of the
backpatching pass (spec §4.4). -/
inductive Instr where
  | loadImm (rd imm : Nat)
  | loadSlot (rd sl : Nat)
  | storeSlot (sl rs : Nat)
  | addR (rd rs : Nat)
  | subR (rd rs : Nat)
  | andR (rd rs : Nat)
  | orR (rd rs : Nat)
  | xorR (rd rs : Nat)
  | notR (rd : Nat)
  | shlR (rd rs : Nat)
  | shrR (rd rs : Nat)
  | cmpR (k : CmpKind) (sgn : Bool) (rd rs : Nat)
  | brTrue (rs tgt : Nat)
  | brFalse (rs tgt : Nat)
  | jmp (tgt : Nat)
  | callI (tgt : Nat)
  | retI
  | portRead (rd p : Nat)
  | portWrite (p rs : Nat)
  | haltI
  deriving DecidableEq, Repr

/-- A port event: the machine's externally visible I/O behaviour. -/
inductive PEvent where
  | readE (p v : Nat)
  | writeE (p v : Nat)
  deriving DecidableEq, Repr

/-- The port an event touches. -/
def PEvent.port : PEvent → Nat
  | .readE p _ => p
  | .writeE p _ => p

/-- Is the event a write? -/
def PEvent.isWrite : PEvent → Bool
  | .readE _ _ => false
  | .writeE _ _ => true

/-- Machine state: program counter, register file, current frame's slots,
saved caller frames with return addresses, the port-event log, the trace
of executed instruction indices, and the halt flag. -/
structure MState where
  pc : Nat
  regs : Nat → Nat
  slots : Nat → Nat
  saved : List ((Nat → Nat) × Nat)
  events : List PEvent
  trace : List Nat
  halted : Bool

/-- Execute one decoded instruction.  `inp p` is the 8-bit value the
environment presents on port `p` (spec §6's port model). -/
def exec (inp : Nat → Nat) (i : Instr) (s : MState) : MState :=
  match i with
  | .loadImm rd imm =>
      { s with pc := s.pc + 1, regs := fun r => if r = rd then imm else s.regs r }
  | .loadSlot rd sl =>
      { s with pc := s.pc + 1, regs := fun r => if r = rd then s.slots sl else s.regs r }
  | .storeSlot sl rs =>
      { s with pc := s.pc + 1, slots := fun q => if q = sl then s.regs rs else s.slots q }
  | .addR rd rs =>
      { s with pc := s.pc + 1,
               regs := fun r => if r = rd then byteAdd (s.regs rd) (s.regs rs) else s.regs r }
  | .subR rd rs =>
      { s with pc := s.pc + 1,
               regs := fun r => if r = rd then byteSub (s.regs rd) (s.regs rs) else s.regs r }
  | .andR rd rs =>
      { s with pc := s.pc + 1,
               regs := fun r => if r = rd then Nat.land (s.regs rd) (s.regs rs) else s.regs r }
  | .orR rd rs =>
      { s with pc := s.pc + 1,
               regs := fun r => if r = rd then Nat.lor (s.regs rd) (s.regs rs) else s.regs r }
  | .xorR rd rs =>
      { s with pc := s.pc + 1,
               regs := fun r => if r = rd then Nat.xor (s.regs rd) (s.regs rs) else s.regs r }
  | .notR rd =>
      { s with pc := s.pc + 1,
               regs := fun r => if r = rd then byteNot (s.regs rd) else s.regs r }
  | .shlR rd rs =>
      { s with pc := s.pc + 1,
               regs := fun r => if r = rd then (s.regs rd <<< s.regs rs) % 256 else s.regs r }
  | .shrR rd rs =>
      { s with pc := s.pc + 1,
               regs := fun r => if r = rd then s.regs rd >>> s.regs rs else s.regs r }
  | .cmpR k sgn rd rs =>
      { s with pc := s.pc + 1,
               regs := fun r =>
                 if r = rd then (if cmpHolds k sgn (s.regs rd) (s.regs rs) then 1 else 0)
                 else s.regs r }
  | .brTrue rs tgt =>
      { s with pc := if s.regs rs = 0 then s.pc + 1 else tgt }
  | .brFalse rs tgt =>
      { s with pc := if s.regs rs = 0 then tgt else s.pc + 1 }
  | .jmp tgt => { s with pc := tgt }
  | .callI tgt =>
      { s with pc := tgt, saved := (s.slots, s.pc + 1) :: s.saved, slots := fun _ => 0 }
  | .retI =>
      match s.saved with
      | [] => { s with halted := true }
      | (fr, rpc) :: rest => { s with pc := rpc, slots := fr, saved := rest }
  | .portRead rd p =>
      { s with pc := s.pc + 1,
               regs := fun r => if r = rd then inp p % 256 else s.regs r,
               events := s.events ++ [.readE p (inp p % 256)] }
  | .portWrite p rs =>
      { s with pc := s.pc + 1, events := s.events ++ [.writeE p (s.regs rs)] }
  | .haltI => { s with halted := true }

/-- One machine step: fetch at `pc`, log the executed index, execute.  A
`pc` outside the stream halts. -/
def step (prog : List Instr) (inp : Nat → Nat) (s : MState) : MState :=
  if s.halted then s
  else
    match prog[s.pc]? with
    | none => { s with halted := true }
    | some i => exec inp i { s with trace := s.trace ++ [s.pc] }

/-- Run the machine for a number of steps (a halted state is a fixed
point of `step`, so any sufficiently large fuel gives the final state). -/
def run (prog : List Instr) (inp : Nat → Nat) : Nat → MState → MState
  | 0, s => s
  | n + 1, s => run prog inp n (step prog inp s)

/-- The initial state for entering the program at `entry`. -/
def initState (entry : Nat) : MState :=
  { pc := entry, regs := fun _ => 0, slots := fun _ => 0, saved := [],
    events := [], trace := [], halted := false }

/-! ## Code generator

Modelled from the spec: §4.4.  Expressions lower by the standard
tree-to-code scheme into a designated register `rd`, using registers
above `rd` as scratch; `&&`, `||` and the ternary operator lower to
short-circuit branch code; statements evaluate into register 0 and keep
variables in frame slots allocated by a deterministic scope-based
counter; calls bind argument values in register order (the spec's
register-window option), the callee's prologue stores them to its frame,
and the return value comes back in register 0.  Branch targets are the
absolute indices the backpatch pass resolves to, computed here from the
emitted block lengths. -/

/-- The machine instruction for an arithmetic/bitwise operator. -/
def binInstr : BinK → Nat → Nat → Instr
  | .badd, rd, rs => .addR rd rs
  | .bsub, rd, rs => .subR rd rs
  | .band, rd, rs => .andR rd rs
  | .bor, rd, rs => .orR rd rs
  | .bxor, rd, rs => .xorR rd rs

/-- Number of instructions an expression compiles to (independent of its
position and destination register, so branch targets can be computed). -/
def codeLen : Expr → Nat
  | .lit _ => 1
  | .blit _ => 1
  | .var _ => 1
  | .inputE _ => 1
  | .bin _ a b => codeLen a + codeLen b + 1
  | .cmp _ _ a b => codeLen a + codeLen b + 1
  | .lognot e => codeLen e + 2
  | .bitnot e => codeLen e + 1
  | .neg e => codeLen e + 2
  | .land a b => codeLen a + 1 + codeLen b
  | .lor a b => codeLen a + 1 + codeLen b
  | .tern c a b => codeLen c + 1 + codeLen a + 1 + codeLen b
  | .castE _ e => codeLen e

/-- Slot environment: variable name to frame slot. -/
def Venv := List (String × Nat)

/-- The slot a variable was allocated (checking guarantees presence). -/
def slotOf (env : Venv) (x : String) : Nat := ((List.lookup x env : Option Nat)).getD 0

/-- Compile an expression to code starting at index `base`, leaving its
value in register `rd` and scratching only registers above `rd`. -/
def compileExpr (env : Venv) : Nat → Nat → Expr → List Instr
  | _, rd, .lit n => [.loadImm rd n]
  | _, rd, .blit b => [.loadImm rd (cond b 1 0)]
  | _, rd, .var x => [.loadSlot rd (slotOf env x)]
  | _, rd, .inputE p => [.portRead rd p]
  | base, rd, .bin k a b =>
      compileExpr env base rd a ++
      compileExpr env (base + codeLen a) (rd + 1) b ++
      [binInstr k rd (rd + 1)]
  | base, rd, .cmp k sgn a b =>
      compileExpr env base rd a ++
      compileExpr env (base + codeLen a) (rd + 1) b ++
      [.cmpR k sgn rd (rd + 1)]
  | base, rd, .lognot e =>
      compileExpr env base rd e ++ [.loadImm (rd + 1) 0, .cmpR .ceq false rd (rd + 1)]
  | base, rd, .bitnot e => compileExpr env base rd e ++ [.notR rd]
  | base, rd, .neg e =>
      [.loadImm rd 0] ++ compileExpr env (base + 1) (rd + 1) e ++ [.subR rd (rd + 1)]
  | base, rd, .land a b =>
      compileExpr env base rd a ++
      [.brFalse rd (base + codeLen a + 1 + codeLen b)] ++
      compileExpr env (base + codeLen a + 1) rd b
  | base, rd, .lor a b =>
      compileExpr env base rd a ++
      [.brTrue rd (base + codeLen a + 1 + codeLen b)] ++
      compileExpr env (base + codeLen a + 1) rd b
  | base, rd, .tern c a b =>
      compileExpr env base rd c ++
      [.brFalse rd (base + codeLen c + 1 + codeLen a + 1)] ++
      compileExpr env (base + codeLen c + 1) rd a ++
      [.jmp (base + codeLen c + 1 + codeLen a + 1 + codeLen b)] ++
      compileExpr env (base + codeLen c + 1 + codeLen a + 1) rd b
  | base, rd, .castE _ e => compileExpr env base rd e

/-- Compile call arguments left to right into registers `rd`, `rd+1`, …
(declared parameter order, spec §4.4). -/
def compileArgs (env : Venv) : Nat → Nat → List Expr → List Instr
  | _, _, [] => []
  | base, rd, a :: rest =>
      compileExpr env base rd a ++ compileArgs env (base + codeLen a) (rd + 1) rest

/-- Total length of compiled arguments. -/
def argsLen (args : List Expr) : Nat := (args.map codeLen).sum

/-- Number of instructions a statement compiles to. -/
def codeLenS : Stmt → Nat
  | .skip => 0
  | .seq a b => codeLenS a + codeLenS b
  | .decl _ _ e => codeLen e + 1
  | .declU _ _ => 0
  | .assign _ e => codeLen e + 1
  | .callAssign _ _ args => argsLen args + 2
  | .ifS c t e => codeLen c + 1 + codeLenS t + 1 + codeLenS e
  | .forS _ _ e0 cond stp body =>
      codeLen e0 + 1 + codeLen cond + 1 + codeLenS body + codeLenS stp + 1
  | .out _ e => codeLen e + 1
  | .ret e => codeLen e + 1
  | .retV => 1
  | .haltS => 1

/-- Function entry table: name to resolved entry index. -/
def Fenv := List (String × Nat)

/-- Resolved entry index of a function. -/
def entryOfF (fenv : Fenv) (f : String) : Nat := ((List.lookup f fenv : Option Nat)).getD 0

/-- Compile a statement at `base`: returns its code together with the
extended slot environment and next free slot, so declarations thread
through sequencing while a branch's inner declarations die with its
scope (the spec's scope-lifetime slot reuse, §4.4 and §9). -/
def compileStmt (fenv : Fenv) : Venv → Nat → Nat → Stmt → List Instr × Venv × Nat
  | env, next, _, .skip => ([], env, next)
  | env, next, base, .seq a b =>
      let ra := compileStmt fenv env next base a
      let rb := compileStmt fenv ra.2.1 ra.2.2 (base + codeLenS a) b
      (ra.1 ++ rb.1, rb.2.1, rb.2.2)
  | env, next, base, .decl x _ e =>
      (compileExpr env base 0 e ++ [.storeSlot next 0], (x, next) :: env, next + 1)
  | env, next, _, .declU x _ => ([], (x, next) :: env, next + 1)
  | env, next, base, .assign x e =>
      (compileExpr env base 0 e ++ [.storeSlot (slotOf env x) 0], env, next)
  | env, next, base, .callAssign x f args =>
      (compileArgs env base 0 args ++
        [.callI (entryOfF fenv f), .storeSlot (slotOf env x) 0], env, next)
  | env, next, base, .ifS c t e =>
      let cc := compileExpr env base 0 c
      let bT := base + codeLen c + 1
      let rt := compileStmt fenv env next bT t
      let bE := bT + codeLenS t + 1
      let re := compileStmt fenv env next bE e
      (cc ++ [.brFalse 0 bE] ++ rt.1 ++ [.jmp (bE + codeLenS e)] ++ re.1, env, next)
  | env, next, base, .forS x _ e0 cond stp body =>
      let c0 := compileExpr env base 0 e0
      let envB : Venv := (x, next) :: env
      let bCond := base + codeLen e0 + 1
      let cc := compileExpr envB bCond 0 cond
      let bBody := bCond + codeLen cond + 1
      let rb := compileStmt fenv envB (next + 1) bBody body
      let bStep := bBody + codeLenS body
      let rs := compileStmt fenv envB (next + 1) bStep stp
      let bEnd := bStep + codeLenS stp + 1
      (c0 ++ [.storeSlot next 0] ++ cc ++ [.brFalse 0 bEnd] ++ rb.1 ++ rs.1 ++
        [.jmp bCond], env, next)
  | env, next, base, .out p e =>
      (compileExpr env base 0 e ++ [.portWrite p 0], env, next)
  | env, next, base, .ret e => (compileExpr env base 0 e ++ [.retI], env, next)
  | env, next, _, .retV => ([.retI], env, next)
  | env, next, _, .haltS => ([.haltI], env, next)

/-- Prologue of an `n`-parameter function: store argument registers
`0..n-1` into frame slots `0..n-1`. -/
def prologue : Nat → List Instr
  | 0 => []
  | n + 1 => prologue n ++ [.storeSlot n n]

/-- Does every control path of the statement end in `return` or `halt`
(so no epilogue is needed to leave the function)? -/
def stmtTerminates : Stmt → Bool
  | .ret _ => true
  | .retV => true
  | .haltS => true
  | .seq a b => stmtTerminates a || stmtTerminates b
  | .ifS _ t e => stmtTerminates t && stmtTerminates e
  | _ => false

/-- Number of instructions a function compiles to: prologue, body, and a
trailing `return` epilogue for a `void` function whose body can fall
through. -/
def funcLen (f : FuncDecl) : Nat :=
  f.params.length + codeLenS f.body +
    (if f.retTy = .void ∧ ¬stmtTerminates f.body then 1 else 0)

/-- Compile one function starting at entry index `base`. -/
def compileFunc (fenv : Fenv) (base : Nat) (f : FuncDecl) : List Instr :=
  let np := f.params.length
  let env0 : Venv := f.params.enum.map fun q => (q.2.1, q.1)
  prologue np ++ (compileStmt fenv env0 np (base + np) f.body).1 ++
    (if f.retTy = .void ∧ ¬stmtTerminates f.body then [.retI] else [])

/-- Lay out the functions in declaration order and record each entry
index (the backpatch table for `call` instructions). -/
def buildFenv : Nat → List FuncDecl → Fenv
  | _, [] => []
  | base, f :: rest => (f.name, base) :: buildFenv (base + funcLen f) rest

/-- Emit every function at its laid-out entry index. -/
def genFuncs (fenv : Fenv) : Nat → List FuncDecl → List Instr
  | _, [] => []
  | base, f :: rest => compileFunc fenv base f ++ genFuncs fenv (base + funcLen f) rest

/-- The instruction stream of a whole program. -/
def genProgram (p : List FuncDecl) : List Instr :=
  genFuncs (buildFenv 0 p) 0 p

/-- The resolved entry-point index (`main`). -/
def entryPoint (p : List FuncDecl) : Nat := entryOfF (buildFenv 0 p) "main"

/-- The compiler pipeline: semantic checking, then code generation; a
stage with errors hands nothing to the next stage (spec §2, §7). -/
def compileProgram (p : List FuncDecl) : Except SemErr (List Instr × Nat) :=
  (checkProgram p).map fun _ => (genProgram p, entryPoint p)

/-! ### Byte encoding of the stream

For the reproducible-build claim: the emitted artifact as raw bytes. -/

/-- Opcode byte of each instruction. -/
def opcodeByte : Instr → Nat
  | .loadImm .. => 0
  | .loadSlot .. => 1
  | .storeSlot .. => 2
  | .addR .. => 3
  | .subR .. => 4
  | .andR .. => 5
  | .orR .. => 6
  | .xorR .. => 7
  | .notR .. => 8
  | .shlR .. => 9
  | .shrR .. => 10
  | .cmpR .. => 11
  | .brTrue .. => 12
  | .brFalse .. => 13
  | .jmp .. => 14
  | .callI .. => 15
  | .retI => 16
  | .portRead .. => 17
  | .portWrite .. => 18
  | .haltI => 19

/-- Fixed-width byte encoding of one instruction. -/
def instrBytes (i : Instr) : List Nat :=
  opcodeByte i ::
    match i with
    | .loadImm rd imm => [rd, imm]
    | .loadSlot rd sl => [rd, sl]
    | .storeSlot sl rs => [sl, rs]
    | .addR rd rs => [rd, rs]
    | .subR rd rs => [rd, rs]
    | .andR rd rs => [rd, rs]
    | .orR rd rs => [rd, rs]
    | .xorR rd rs => [rd, rs]
    | .notR rd => [rd, 0]
    | .shlR rd rs => [rd, rs]
    | .shrR rd rs => [rd, rs]
    | .cmpR k sgn rd rs =>
        [(match k with | .ceq => 0 | .cne => 1 | .clt => 2 | .cle => 3) * 2 +
          (cond sgn 1 0), rd * 256 + rs]
    | .brTrue rs tgt => [rs, tgt]
    | .brFalse rs tgt => [rs, tgt]
    | .jmp tgt => [tgt, 0]
    | .callI tgt => [tgt, 0]
    | .retI => [0, 0]
    | .portRead rd p => [rd, p]
    | .portWrite p rs => [p, rs]
    | .haltI => [0, 0]

/-- The whole stream as bytes. -/
def streamBytes (l : List Instr) : List Nat := (l.map instrBytes).flatten

/-! ## Source-level expression semantics

The observable behaviour the generated expression code must have
(spec §4.4): a value, an ordered list of port events — with mandatory
short-circuiting for `&&`, `||` and the ternary operator — and the number
of machine steps the code takes.  `st` gives the values variables hold,
`inp` the values ports present. -/

/-- Value of an arithmetic/bitwise operator on bytes. -/
def binVal : BinK → Nat → Nat → Nat
  | .badd, a, b => byteAdd a b
  | .bsub, a, b => byteSub a b
  | .band, a, b => Nat.land a b
  | .bor, a, b => Nat.lor a b
  | .bxor, a, b => Nat.xor a b

/-- Big-step evaluation: (value, port events in order, machine steps). -/
def evalE (st : String → Nat) (inp : Nat → Nat) : Expr → Nat × List PEvent × Nat
  | .lit n => (n, [], 1)
  | .blit b => (cond b 1 0, [], 1)
  | .var x => (st x, [], 1)
  | .inputE p => (inp p % 256, [.readE p (inp p % 256)], 1)
  | .bin k a b =>
      let ra := evalE st inp a
      let rb := evalE st inp b
      (binVal k ra.1 rb.1, ra.2.1 ++ rb.2.1, ra.2.2 + rb.2.2 + 1)
  | .cmp k sgn a b =>
      let ra := evalE st inp a
      let rb := evalE st inp b
      (if cmpHolds k sgn ra.1 rb.1 then 1 else 0, ra.2.1 ++ rb.2.1, ra.2.2 + rb.2.2 + 1)
  | .lognot e =>
      let re := evalE st inp e
      (if re.1 = 0 then 1 else 0, re.2.1, re.2.2 + 2)
  | .bitnot e =>
      let re := evalE st inp e
      (byteNot re.1, re.2.1, re.2.2 + 1)
  | .neg e =>
      let re := evalE st inp e
      (byteSub 0 re.1, re.2.1, re.2.2 + 2)
  | .land a b =>
      let ra := evalE st inp a
      if ra.1 = 0 then (0, ra.2.1, ra.2.2 + 1)
      else
        let rb := evalE st inp b
        (rb.1, ra.2.1 ++ rb.2.1, ra.2.2 + 1 + rb.2.2)
  | .lor a b =>
      let ra := evalE st inp a
      if ra.1 = 0 then
        let rb := evalE st inp b
        (rb.1, ra.2.1 ++ rb.2.1, ra.2.2 + 1 + rb.2.2)
      else (ra.1, ra.2.1, ra.2.2 + 1)
  | .tern c a b =>
      let rc := evalE st inp c
      if rc.1 = 0 then
        let rb := evalE st inp b
        (rb.1, rc.2.1 ++ rb.2.1, rc.2.2 + 1 + rb.2.2)
      else
        let ra := evalE st inp a
        (ra.1, rc.2.1 ++ ra.2.1, rc.2.2 + 1 + ra.2.2 + 1)
  | .castE _ e => evalE st inp e

/-- The store an expression evaluates against when its code runs in
machine state `s` under slot environment `env`. -/
def estore (env : Venv) (s : MState) : String → Nat := fun x => s.slots (slotOf env x)

/-! ## The embedded example programs -/

/-- `uint8 add(uint8 a, uint8 b) { return a + b; }`
(src/complier/examples/calculator.c, lines 3–5). -/
def addFn : FuncDecl :=
  { name := "add", params := [("a", .uint8), ("b", .uint8)], retTy := .uint8,
    body := .ret (.bin .badd (.var "a") (.var "b")) }

/-- `uint8 subtract(uint8 a, uint8 b) { return a - b; }`
(calculator.c, lines 7–9). -/
def subtractFn : FuncDecl :=
  { name := "subtract", params := [("a", .uint8), ("b", .uint8)], retTy := .uint8,
    body := .ret (.bin .bsub (.var "a") (.var "b")) }

/-- The body of calculator.c's `main` (lines 11–28): read ports 0–2,
dispatch on `op` through the `if`/`else if`/`else` chain, write port 3,
halt.  `0xFF` is the value the lexer resolves for that literal. -/
def calcMainBody : Stmt :=
  .seq (.decl "num1" .uint8 (.inputE 0))
  (.seq (.decl "num2" .uint8 (.inputE 1))
  (.seq (.decl "op" .uint8 (.inputE 2))
  (.seq (.declU "result" .uint8)
  (.seq (.ifS (.cmp .ceq false (.var "op") (.lit 1))
          (.callAssign "result" "add" [.var "num1", .var "num2"])
          (.ifS (.cmp .ceq false (.var "op") (.lit 2))
            (.callAssign "result" "subtract" [.var "num1", .var "num2"])
            (.assign "result" (.lit 255))))
  (.seq (.out 3 (.var "result"))
        .haltS)))))

/-- calculator.c's `main`. -/
def calcMainFn : FuncDecl :=
  { name := "main", params := [], retTy := .void, body := calcMainBody }

/-- The calculator program. -/
def calculator : List FuncDecl := [addFn, subtractFn, calcMainFn]

/-- The calculator's generated instruction stream. -/
def calcProg : List Instr := genProgram calculator

/-- The calculator's resolved entry index. -/
def calcEntry : Nat := entryPoint calculator

/-- The final machine state of a calculator run under port inputs `inp`
(fuel 64 exceeds the longest path; halting absorbs the rest). -/
def calcFinal (inp : Nat → Nat) : MState := run calcProg inp 64 (initState calcEntry)

/-! ## Generated-code correctness for expressions

`Segment prog base code` says `code` is embedded in the stream at index
`base`; the main lemma below proves that running an expression's code
from its base produces exactly the value, the port events and the step
count of `evalE` — in particular the short-circuit behaviour §4.4
mandates. -/

/-- `code` occupies indices `base..base+len-1` of `prog`. -/
def Segment (prog : List Instr) (base : Nat) (code : List Instr) : Prop :=
  ∀ k, k < code.length → prog[base + k]? = code[k]?

theorem Segment.left {prog : List Instr} {base : Nat} {c1 c2 : List Instr}
    (h : Segment prog base (c1 ++ c2)) : Segment prog base c1 := by
  intro k hk
  have h1 := h k (by simp; omega)
  rwa [List.getElem?_append, if_pos hk] at h1

theorem Segment.right {prog : List Instr} {base : Nat} {c1 c2 : List Instr}
    (h : Segment prog base (c1 ++ c2)) : Segment prog (base + c1.length) c2 := by
  intro k hk
  have h1 := h (c1.length + k) (by simp; omega)
  rw [List.getElem?_append_right (by omega)] at h1
  simpa [Nat.add_assoc] using h1

theorem Segment.head {prog : List Instr} {base : Nat} {i : Instr} {rest : List Instr}
    (h : Segment prog base (i :: rest)) : prog[base]? = some i := by
  simpa using h 0 (by simp)

theorem run_add (prog : List Instr) (inp : Nat → Nat) (m n : Nat) (s : MState) :
    run prog inp (m + n) s = run prog inp n (run prog inp m s) := by
  induction m generalizing s with
  | zero => simp [run]
  | succ m ih =>
      have : m + 1 + n = (m + n) + 1 := by omega
      rw [this]
      simp only [run]
      exact ih (step prog inp s)

theorem step_halted {prog : List Instr} {inp : Nat → Nat} {s : MState}
    (h : s.halted = true) : step prog inp s = s := by
  simp [step, h]

theorem run_halted {prog : List Instr} {inp : Nat → Nat} {n : Nat} {s : MState}
    (h : s.halted = true) : run prog inp n s = s := by
  induction n with
  | zero => rfl
  | succ n ih => simp only [run, step_halted h]; exact ih

theorem run_one (prog : List Instr) (inp : Nat → Nat) (s : MState) (i : Instr)
    (hh : s.halted = false) (hi : prog[s.pc]? = some i) :
    run prog inp 1 s = exec inp i { s with trace := s.trace ++ [s.pc] } := by
  simp [run, step, hh, hi]

theorem exec_binInstr (inp : Nat → Nat) (k : BinK) (rd rs : Nat) (s : MState) :
    exec inp (binInstr k rd rs) s =
      { s with pc := s.pc + 1,
               regs := fun r => if r = rd then binVal k (s.regs rd) (s.regs rs)
                                else s.regs r } := by
  cases k <;> rfl

theorem estore_congr {env : Venv} {s1 s2 : MState} (h : s1.slots = s2.slots) :
    estore env s1 = estore env s2 := by
  funext x
  simp [estore, h]

@[simp]
theorem compileExpr_length (env : Venv) (e : Expr) :
    ∀ base rd, (compileExpr env base rd e).length = codeLen e := by
  induction e <;> intro base rd <;>
    simp [compileExpr, codeLen, *] <;> omega

theorem Segment.tail {prog : List Instr} {base : Nat} {i : Instr} {rest : List Instr}
    (h : Segment prog base (i :: rest)) : Segment prog (base + 1) rest := by
  intro k hk
  have h1 := h (k + 1) (by simp; omega)
  rw [show base + (k + 1) = base + 1 + k by omega] at h1
  simpa using h1

/-- What a successful expression run looks like: still running, stopped
at `endPc`, value `v` in register `rd`, registers below `rd`, the frame,
and the call stack untouched, and exactly `evs` appended to the event
log. -/
def RunsTo (prog : List Instr) (inp : Nat → Nat) (s : MState)
    (steps endPc rd v : Nat) (evs : List PEvent) : Prop :=
  (run prog inp steps s).halted = false ∧
  (run prog inp steps s).pc = endPc ∧
  (run prog inp steps s).regs rd = v ∧
  (∀ q, q < rd → (run prog inp steps s).regs q = s.regs q) ∧
  (run prog inp steps s).slots = s.slots ∧
  (run prog inp steps s).saved = s.saved ∧
  (run prog inp steps s).events = s.events ++ evs

/-- Common skeleton for the two-operand operator expressions: operand
code for `a` into `rd`, operand code for `b` into `rd+1`, then one
instruction combining them by `f`. -/
theorem binSkeleton (prog : List Instr) (inp : Nat → Nat) (env : Venv)
    (a b : Expr) (base rd : Nat) (s : MState) (i : Instr) (f : Nat → Nat → Nat)
    (hexec : ∀ t : MState, exec inp i t =
      { t with pc := t.pc + 1,
               regs := fun r => if r = rd then f (t.regs rd) (t.regs (rd + 1))
                                else t.regs r })
    (iha : ∀ s1 : MState, s1.halted = false → s1.pc = base →
      Segment prog base (compileExpr env base rd a) →
      RunsTo prog inp s1 (evalE (estore env s1) inp a).2.2 (base + codeLen a) rd
        (evalE (estore env s1) inp a).1 (evalE (estore env s1) inp a).2.1)
    (ihb : ∀ s1 : MState, s1.halted = false → s1.pc = base + codeLen a →
      Segment prog (base + codeLen a) (compileExpr env (base + codeLen a) (rd + 1) b) →
      RunsTo prog inp s1 (evalE (estore env s1) inp b).2.2 (base + codeLen a + codeLen b)
        (rd + 1) (evalE (estore env s1) inp b).1 (evalE (estore env s1) inp b).2.1)
    (hh : s.halted = false) (hpc : s.pc = base)
    (hseg : Segment prog base
      (compileExpr env base rd a ++ compileExpr env (base + codeLen a) (rd + 1) b ++ [i])) :
    RunsTo prog inp s
      ((evalE (estore env s) inp a).2.2 + (evalE (estore env s) inp b).2.2 + 1)
      (base + (codeLen a + codeLen b + 1)) rd
      (f (evalE (estore env s) inp a).1 (evalE (estore env s) inp b).1)
      ((evalE (estore env s) inp a).2.1 ++ (evalE (estore env s) inp b).2.1) := by
  have hsegA : Segment prog base (compileExpr env base rd a) := hseg.left.left
  have hsegB : Segment prog (base + codeLen a)
      (compileExpr env (base + codeLen a) (rd + 1) b) := by
    have h := hseg.left.right
    rwa [compileExpr_length] at h
  have hsegI : Segment prog (base + codeLen a + codeLen b) [i] := by
    have h := hseg.right
    rwa [List.length_append, compileExpr_length, compileExpr_length, ← Nat.add_assoc]
      at h
  obtain ⟨ha1, ha2, ha3, ha4, ha5, ha6, ha7⟩ := iha s hh hpc hsegA
  have hstore : estore env (run prog inp (evalE (estore env s) inp a).2.2 s)
      = estore env s := estore_congr (by rw [ha5])
  obtain ⟨hb1, hb2, hb3, hb4, hb5, hb6, hb7⟩ :=
    ihb (run prog inp (evalE (estore env s) inp a).2.2 s) ha1 ha2 hsegB
  rw [hstore] at hb1 hb2 hb3 hb4 hb5 hb6 hb7
  have hi : prog[(run prog inp (evalE (estore env s) inp b).2.2
      (run prog inp (evalE (estore env s) inp a).2.2 s)).pc]? = some i := by
    rw [hb2]
    exact hsegI.head
  unfold RunsTo
  rw [run_add prog inp
      ((evalE (estore env s) inp a).2.2 + (evalE (estore env s) inp b).2.2) 1,
    run_add prog inp (evalE (estore env s) inp a).2.2 (evalE (estore env s) inp b).2.2,
    run_one prog inp _ i hb1 hi, hexec]
  refine ⟨hb1, ?_, ?_, ?_, ?_, ?_, ?_⟩
  · simp only [MState.pc]
    rw [hb2]
    omega
  · simp only [MState.regs, if_pos rfl]
    rw [hb3, hb4 rd (by omega), ha3]
    simp
  · intro q hq
    simp only [MState.regs, if_neg (Nat.ne_of_lt hq)]
    rw [hb4 q (by omega), ha4 q hq]
  · simp only [MState.slots]
    rw [hb5, ha5]
  · simp only [MState.saved]
    rw [hb6, ha6]
  · simp only [MState.events]
    rw [hb7, ha7, List.append_assoc]

theorem run1_loadImm {prog : List Instr} (inp : Nat → Nat) {s : MState} {rd imm : Nat}
    (hh : s.halted = false) (hi : prog[s.pc]? = some (.loadImm rd imm)) :
    run prog inp 1 s =
      { s with pc := s.pc + 1,
               regs := fun r => if r = rd then imm else s.regs r,
               trace := s.trace ++ [s.pc] } := by
  rw [run_one prog inp s _ hh hi]
  rfl

theorem run1_cmpR {prog : List Instr} (inp : Nat → Nat) {s : MState} {k : CmpKind}
    {sgn : Bool} {rd rs : Nat}
    (hh : s.halted = false) (hi : prog[s.pc]? = some (.cmpR k sgn rd rs)) :
    run prog inp 1 s =
      { s with pc := s.pc + 1,
               regs := fun r =>
                 if r = rd then (if cmpHolds k sgn (s.regs rd) (s.regs rs) then 1 else 0)
                 else s.regs r,
               trace := s.trace ++ [s.pc] } := by
  rw [run_one prog inp s _ hh hi]
  rfl

theorem run1_subR {prog : List Instr} (inp : Nat → Nat) {s : MState} {rd rs : Nat}
    (hh : s.halted = false) (hi : prog[s.pc]? = some (.subR rd rs)) :
    run prog inp 1 s =
      { s with pc := s.pc + 1,
               regs := fun r => if r = rd then byteSub (s.regs rd) (s.regs rs)
                                else s.regs r,
               trace := s.trace ++ [s.pc] } := by
  rw [run_one prog inp s _ hh hi]
  rfl

theorem run1_notR {prog : List Instr} (inp : Nat → Nat) {s : MState} {rd : Nat}
    (hh : s.halted = false) (hi : prog[s.pc]? = some (.notR rd)) :
    run prog inp 1 s =
      { s with pc := s.pc + 1,
               regs := fun r => if r = rd then byteNot (s.regs rd) else s.regs r,
               trace := s.trace ++ [s.pc] } := by
  rw [run_one prog inp s _ hh hi]
  rfl

theorem run1_brFalse {prog : List Instr} (inp : Nat → Nat) {s : MState} {rs tgt : Nat}
    (hh : s.halted = false) (hi : prog[s.pc]? = some (.brFalse rs tgt)) :
    run prog inp 1 s =
      { s with pc := if s.regs rs = 0 then tgt else s.pc + 1,
               trace := s.trace ++ [s.pc] } := by
  rw [run_one prog inp s _ hh hi]
  rfl

theorem run1_brTrue {prog : List Instr} (inp : Nat → Nat) {s : MState} {rs tgt : Nat}
    (hh : s.halted = false) (hi : prog[s.pc]? = some (.brTrue rs tgt)) :
    run prog inp 1 s =
      { s with pc := if s.regs rs = 0 then s.pc + 1 else tgt,
               trace := s.trace ++ [s.pc] } := by
  rw [run_one prog inp s _ hh hi]
  rfl

theorem run1_jmp {prog : List Instr} (inp : Nat → Nat) {s : MState} {tgt : Nat}
    (hh : s.halted = false) (hi : prog[s.pc]? = some (.jmp tgt)) :
    run prog inp 1 s =
      { s with pc := tgt, trace := s.trace ++ [s.pc] } := by
  rw [run_one prog inp s _ hh hi]
  rfl

/-- Main generated-code correctness lemma for expressions: running the
compiled code of `e` from its base, in any stream embedding it, takes
exactly `evalE`'s step count and realises `evalE`'s value and port-event
list — with registers below the destination, the frame and the call stack
untouched.  In particular the short-circuit operators execute no
instruction (hence no side effect) of an untaken operand. -/
theorem compileExpr_spec (prog : List Instr) (inp : Nat → Nat) (env : Venv) :
    ∀ (e : Expr) (base rd : Nat) (s : MState),
      s.halted = false → s.pc = base →
      Segment prog base (compileExpr env base rd e) →
      RunsTo prog inp s (evalE (estore env s) inp e).2.2 (base + codeLen e) rd
        (evalE (estore env s) inp e).1 (evalE (estore env s) inp e).2.1 := by
  intro e
  induction e with
  | lit n =>
      intro base rd s hh hpc hseg
      have hi : prog[s.pc]? = some (.loadImm rd n) := by
        rw [hpc]; exact hseg.head
      unfold RunsTo
      rw [show (evalE (estore env s) inp (Expr.lit n)).2.2 = 1 from rfl,
        run1_loadImm inp hh hi]
      refine ⟨hh, by simp [hpc, codeLen], by simp [evalE], ?_, rfl, rfl,
        by simp [evalE]⟩
      intro q hq
      simp [Nat.ne_of_lt hq]
  | blit b =>
      intro base rd s hh hpc hseg
      have hi : prog[s.pc]? = some (.loadImm rd (cond b 1 0)) := by
        rw [hpc]; exact hseg.head
      unfold RunsTo
      rw [show (evalE (estore env s) inp (Expr.blit b)).2.2 = 1 from rfl,
        run1_loadImm inp hh hi]
      refine ⟨hh, by simp [hpc, codeLen], by simp [evalE], ?_, rfl, rfl,
        by simp [evalE]⟩
      intro q hq
      simp [Nat.ne_of_lt hq]
  | var x =>
      intro base rd s hh hpc hseg
      have hi : prog[s.pc]? = some (.loadSlot rd (slotOf env x)) := by
        rw [hpc]; exact hseg.head
      unfold RunsTo
      rw [show (evalE (estore env s) inp (Expr.var x)).2.2 = 1 from rfl,
        run_one prog inp s _ hh hi]
      refine ⟨hh, by simp [exec, hpc, codeLen], by simp [exec, evalE, estore], ?_,
        by simp [exec], by simp [exec], by simp [exec, evalE]⟩
      intro q hq
      simp [exec, Nat.ne_of_lt hq]
  | inputE p =>
      intro base rd s hh hpc hseg
      have hi : prog[s.pc]? = some (.portRead rd p) := by
        rw [hpc]; exact hseg.head
      unfold RunsTo
      rw [show (evalE (estore env s) inp (Expr.inputE p)).2.2 = 1 from rfl,
        run_one prog inp s _ hh hi]
      refine ⟨hh, by simp [exec, hpc, codeLen], by simp [exec, evalE], ?_,
        by simp [exec], by simp [exec], by simp [exec, evalE]⟩
      intro q hq
      simp [exec, Nat.ne_of_lt hq]
  | bin k a b iha ihb =>
      intro base rd s hh hpc hseg
      have h := binSkeleton prog inp env a b base rd s (binInstr k rd (rd + 1))
        (binVal k) (exec_binInstr inp k rd (rd + 1))
        (fun s1 => iha base rd s1) (fun s1 => ihb (base + codeLen a) (rd + 1) s1)
        hh hpc (by simpa [compileExpr] using hseg)
      simpa [evalE, codeLen] using h
  | cmp k sgn a b iha ihb =>
      intro base rd s hh hpc hseg
      have h := binSkeleton prog inp env a b base rd s (.cmpR k sgn rd (rd + 1))
        (fun x y => if cmpHolds k sgn x y then 1 else 0) (fun _ => rfl)
        (fun s1 => iha base rd s1) (fun s1 => ihb (base + codeLen a) (rd + 1) s1)
        hh hpc (by simpa [compileExpr] using hseg)
      simpa [evalE, codeLen] using h
  | lognot e ihe =>
      intro base rd s hh hpc hseg
      have hsegE : Segment prog base (compileExpr env base rd e) := hseg.left
      have hsegT : Segment prog (base + codeLen e)
          [Instr.loadImm (rd + 1) 0, Instr.cmpR .ceq false rd (rd + 1)] := by
        have h := hseg.right
        rwa [compileExpr_length] at h
      obtain ⟨h1, h2, h3, h4, h5, h6, h7⟩ := ihe base rd s hh hpc hsegE
      have hi1 : prog[(run prog inp (evalE (estore env s) inp e).2.2 s).pc]?
          = some (.loadImm (rd + 1) 0) := by
        rw [h2]; exact hsegT.head
      have hs2 := run1_loadImm inp h1 hi1
      have hi2 : prog[(run prog inp 1
          (run prog inp (evalE (estore env s) inp e).2.2 s)).pc]?
          = some (.cmpR .ceq false rd (rd + 1)) := by
        rw [hs2]
        simpa [h2] using hsegT.tail.head
      have hh2 : (run prog inp 1
          (run prog inp (evalE (estore env s) inp e).2.2 s)).halted = false := by
        rw [hs2]; exact h1
      unfold RunsTo
      rw [show (evalE (estore env s) inp (Expr.lognot e)).2.2
            = (evalE (estore env s) inp e).2.2 + 1 + 1 from rfl,
        run_add prog inp ((evalE (estore env s) inp e).2.2 + 1) 1,
        run_add prog inp (evalE (estore env s) inp e).2.2 1,
        run1_cmpR inp hh2 hi2, hs2]
      refine ⟨h1, ?_, ?_, ?_, by simpa using h5, by simpa using h6, ?_⟩
      · simp only [MState.pc]
        rw [h2]
        simp [codeLen]
        omega
      · simp only [MState.regs, if_pos rfl]
        simp [evalE, if_neg (Nat.ne_of_lt (Nat.lt_succ_self rd)), h3, cmpHolds]
      · intro q hq
        simp only [MState.regs, if_neg (Nat.ne_of_lt hq),
          if_neg (Nat.ne_of_lt (by omega : q < rd + 1))]
        exact h4 q hq
      · simp only [MState.events]
        simpa [evalE] using h7
  | bitnot e ihe =>
      intro base rd s hh hpc hseg
      have hsegE : Segment prog base (compileExpr env base rd e) := hseg.left
      have hsegT : Segment prog (base + codeLen e) [Instr.notR rd] := by
        have h := hseg.right
        rwa [compileExpr_length] at h
      obtain ⟨h1, h2, h3, h4, h5, h6, h7⟩ := ihe base rd s hh hpc hsegE
      have hi1 : prog[(run prog inp (evalE (estore env s) inp e).2.2 s).pc]?
          = some (.notR rd) := by
        rw [h2]; exact hsegT.head
      unfold RunsTo
      rw [show (evalE (estore env s) inp (Expr.bitnot e)).2.2
            = (evalE (estore env s) inp e).2.2 + 1 from rfl,
        run_add prog inp (evalE (estore env s) inp e).2.2 1,
        run1_notR inp h1 hi1]
      refine ⟨h1, ?_, ?_, ?_, by simpa using h5, by simpa using h6, ?_⟩
      · simp only [MState.pc]
        rw [h2]
        simp [codeLen]
        omega
      · simp only [MState.regs, if_pos rfl]
        simp [evalE, h3]
      · intro q hq
        simp only [MState.regs, if_neg (Nat.ne_of_lt hq)]
        exact h4 q hq
      · simp only [MState.events]
        simpa [evalE] using h7
  | neg e ihe =>
      intro base rd s hh hpc hseg
      have hsegL : Segment prog base [Instr.loadImm rd 0] := hseg.left.left
      have hsegE : Segment prog (base + 1) (compileExpr env (base + 1) (rd + 1) e) := by
        have h := hseg.left.right
        simpa using h
      have hsegT : Segment prog (base + 1 + codeLen e) [Instr.subR rd (rd + 1)] := by
        have h := hseg.right
        rwa [List.length_append, List.length_singleton, compileExpr_length,
          ← Nat.add_assoc] at h
      have hi0 : prog[s.pc]? = some (.loadImm rd 0) := by
        rw [hpc]; exact hsegL.head
      have hs1 := run1_loadImm inp hh hi0
      have hh1 : (run prog inp 1 s).halted = false := by rw [hs1]; exact hh
      have hpc1 : (run prog inp 1 s).pc = base + 1 := by rw [hs1]; simp [hpc]
      obtain ⟨h1, h2, h3, h4, h5, h6, h7⟩ :=
        ihe (base + 1) (rd + 1) (run prog inp 1 s) hh1 hpc1 hsegE
      have hstore : estore env (run prog inp 1 s) = estore env s :=
        estore_congr (by rw [hs1])
      rw [hstore] at h1 h2 h3 h4 h5 h6 h7
      have hi2 : prog[(run prog inp (evalE (estore env s) inp e).2.2
          (run prog inp 1 s)).pc]? = some (.subR rd (rd + 1)) := by
        rw [h2]; exact hsegT.head
      unfold RunsTo
      rw [show (evalE (estore env s) inp (Expr.neg e)).2.2
            = 1 + ((evalE (estore env s) inp e).2.2 + 1) from by
          simp [evalE]; omega,
        run_add prog inp 1 ((evalE (estore env s) inp e).2.2 + 1),
        run_add prog inp (evalE (estore env s) inp e).2.2 1,
        run1_subR inp h1 hi2]
      refine ⟨h1, ?_, ?_, ?_, ?_, ?_, ?_⟩
      · simp only [MState.pc]
        rw [h2]
        simp [codeLen]
        omega
      · simp only [MState.regs, if_pos rfl]
        rw [h3, h4 rd (Nat.lt_succ_self rd)]
        rw [hs1]
        simp [evalE]
      · intro q hq
        simp only [MState.regs, if_neg (Nat.ne_of_lt hq)]
        rw [h4 q (by omega), hs1]
        simp [Nat.ne_of_lt hq]
      · simp only [MState.slots]
        rw [h5, hs1]
      · simp only [MState.saved]
        rw [h6, hs1]
      · simp only [MState.events]
        rw [h7, hs1]
        simp [evalE]
  | land a b iha ihb =>
      intro base rd s hh hpc hseg
      have hsegA : Segment prog base (compileExpr env base rd a) := hseg.left.left
      have hsegBr : Segment prog (base + codeLen a)
          [Instr.brFalse rd (base + codeLen a + 1 + codeLen b)] := by
        have h := hseg.left.right
        rwa [compileExpr_length] at h
      have hsegB : Segment prog (base + codeLen a + 1)
          (compileExpr env (base + codeLen a + 1) rd b) := by
        have h := hseg.right
        rwa [List.length_append, List.length_singleton, compileExpr_length,
          ← Nat.add_assoc] at h
      obtain ⟨ha1, ha2, ha3, ha4, ha5, ha6, ha7⟩ := iha base rd s hh hpc hsegA
      have hbr : prog[(run prog inp (evalE (estore env s) inp a).2.2 s).pc]?
          = some (.brFalse rd (base + codeLen a + 1 + codeLen b)) := by
        rw [ha2]; exact hsegBr.head
      have hs2 := run1_brFalse inp ha1 hbr
      by_cases hva : (evalE (estore env s) inp a).1 = 0
      · unfold RunsTo
        rw [show (evalE (estore env s) inp (Expr.land a b)).2.2
              = (evalE (estore env s) inp a).2.2 + 1 from by simp [evalE, hva],
          show (evalE (estore env s) inp (Expr.land a b)).1 = 0 from by
            simp [evalE, hva],
          show (evalE (estore env s) inp (Expr.land a b)).2.1
              = (evalE (estore env s) inp a).2.1 from by simp [evalE, hva],
          run_add prog inp (evalE (estore env s) inp a).2.2 1, hs2]
        refine ⟨ha1, ?_, ?_, fun q hq => ha4 q hq, ha5, ha6, ha7⟩
        · simp only [MState.pc]
          rw [ha3, if_pos hva]
          simp [codeLen]
          omega
        · simp only [MState.regs]
          rw [ha3, hva]
      · have hh2 : (run prog inp 1
            (run prog inp (evalE (estore env s) inp a).2.2 s)).halted = false := by
          rw [hs2]; exact ha1
        have hpc2 : (run prog inp 1
            (run prog inp (evalE (estore env s) inp a).2.2 s)).pc
            = base + codeLen a + 1 := by
          rw [hs2]
          simp only [MState.pc]
          rw [ha3, if_neg hva, ha2]
        obtain ⟨hb1, hb2, hb3, hb4, hb5, hb6, hb7⟩ :=
          ihb (base + codeLen a + 1) rd
            (run prog inp 1 (run prog inp (evalE (estore env s) inp a).2.2 s))
            hh2 hpc2 hsegB
        have hstore : estore env (run prog inp 1
            (run prog inp (evalE (estore env s) inp a).2.2 s)) = estore env s := by
          refine estore_congr ?_
          rw [hs2]
          simpa using ha5
        rw [hstore] at hb1 hb2 hb3 hb4 hb5 hb6 hb7
        unfold RunsTo
        rw [show (evalE (estore env s) inp (Expr.land a b)).2.2
              = (evalE (estore env s) inp a).2.2 + 1
                + (evalE (estore env s) inp b).2.2 from by simp [evalE, hva],
          show (evalE (estore env s) inp (Expr.land a b)).1
              = (evalE (estore env s) inp b).1 from by simp [evalE, hva],
          show (evalE (estore env s) inp (Expr.land a b)).2.1
              = (evalE (estore env s) inp a).2.1
                ++ (evalE (estore env s) inp b).2.1 from by simp [evalE, hva],
          run_add prog inp ((evalE (estore env s) inp a).2.2 + 1)
            (evalE (estore env s) inp b).2.2,
          run_add prog inp (evalE (estore env s) inp a).2.2 1]
        refine ⟨hb1, ?_, hb3, ?_, ?_, ?_, ?_⟩
        · rw [hb2]
          simp [codeLen]
          omega
        · intro q hq
          rw [hb4 q hq, hs2]
          simpa using ha4 q hq
        · rw [hb5, hs2]
          simpa using ha5
        · rw [hb6, hs2]
          simpa using ha6
        · rw [hb7, hs2]
          simp only [MState.events]
          rw [ha7, List.append_assoc]
  | lor a b iha ihb =>
      intro base rd s hh hpc hseg
      have hsegA : Segment prog base (compileExpr env base rd a) := hseg.left.left
      have hsegBr : Segment prog (base + codeLen a)
          [Instr.brTrue rd (base + codeLen a + 1 + codeLen b)] := by
        have h := hseg.left.right
        rwa [compileExpr_length] at h
      have hsegB : Segment prog (base + codeLen a + 1)
          (compileExpr env (base + codeLen a + 1) rd b) := by
        have h := hseg.right
        rwa [List.length_append, List.length_singleton, compileExpr_length,
          ← Nat.add_assoc] at h
      obtain ⟨ha1, ha2, ha3, ha4, ha5, ha6, ha7⟩ := iha base rd s hh hpc hsegA
      have hbr : prog[(run prog inp (evalE (estore env s) inp a).2.2 s).pc]?
          = some (.brTrue rd (base + codeLen a + 1 + codeLen b)) := by
        rw [ha2]; exact hsegBr.head
      have hs2 := run1_brTrue inp ha1 hbr
      by_cases hva : (evalE (estore env s) inp a).1 = 0
      · have hh2 : (run prog inp 1
            (run prog inp (evalE (estore env s) inp a).2.2 s)).halted = false := by
          rw [hs2]; exact ha1
        have hpc2 : (run prog inp 1
            (run prog inp (evalE (estore env s) inp a).2.2 s)).pc
            = base + codeLen a + 1 := by
          rw [hs2]
          simp only [MState.pc]
          rw [ha3, if_pos hva, ha2]
        obtain ⟨hb1, hb2, hb3, hb4, hb5, hb6, hb7⟩ :=
          ihb (base + codeLen a + 1) rd
            (run prog inp 1 (run prog inp (evalE (estore env s) inp a).2.2 s))
            hh2 hpc2 hsegB
        have hstore : estore env (run prog inp 1
            (run prog inp (evalE (estore env s) inp a).2.2 s)) = estore env s := by
          refine estore_congr ?_
          rw [hs2]
          simpa using ha5
        rw [hstore] at hb1 hb2 hb3 hb4 hb5 hb6 hb7
        unfold RunsTo
        rw [show (evalE (estore env s) inp (Expr.lor a b)).2.2
              = (evalE (estore env s) inp a).2.2 + 1
                + (evalE (estore env s) inp b).2.2 from by simp [evalE, hva],
          show (evalE (estore env s) inp (Expr.lor a b)).1
              = (evalE (estore env s) inp b).1 from by simp [evalE, hva],
          show (evalE (estore env s) inp (Expr.lor a b)).2.1
              = (evalE (estore env s) inp a).2.1
                ++ (evalE (estore env s) inp b).2.1 from by simp [evalE, hva],
          run_add prog inp ((evalE (estore env s) inp a).2.2 + 1)
            (evalE (estore env s) inp b).2.2,
          run_add prog inp (evalE (estore env s) inp a).2.2 1]
        refine ⟨hb1, ?_, hb3, ?_, ?_, ?_, ?_⟩
        · rw [hb2]
          simp [codeLen]
          omega
        · intro q hq
          rw [hb4 q hq, hs2]
          simpa using ha4 q hq
        · rw [hb5, hs2]
          simpa using ha5
        · rw [hb6, hs2]
          simpa using ha6
        · rw [hb7, hs2]
          simp only [MState.events]
          rw [ha7, List.append_assoc]
      · unfold RunsTo
        rw [show (evalE (estore env s) inp (Expr.lor a b)).2.2
              = (evalE (estore env s) inp a).2.2 + 1 from by simp [evalE, hva],
          show (evalE (estore env s) inp (Expr.lor a b)).1
              = (evalE (estore env s) inp a).1 from by simp [evalE, hva],
          show (evalE (estore env s) inp (Expr.lor a b)).2.1
              = (evalE (estore env s) inp a).2.1 from by simp [evalE, hva],
          run_add prog inp (evalE (estore env s) inp a).2.2 1, hs2]
        refine ⟨ha1, ?_, ?_, fun q hq => ha4 q hq, ha5, ha6, ha7⟩
        · simp only [MState.pc]
          rw [ha3, if_neg hva]
          simp [codeLen]
          omega
        · simp only [MState.regs]
          exact ha3
  | tern c a b ihc iha ihb =>
      intro base rd s hh hpc hseg
      have hsegC : Segment prog base (compileExpr env base rd c) :=
        hseg.left.left.left.left
      have hsegBr : Segment prog (base + codeLen c)
          [Instr.brFalse rd (base + codeLen c + 1 + codeLen a + 1)] := by
        have h := hseg.left.left.left.right
        rwa [compileExpr_length] at h
      have hsegA : Segment prog (base + codeLen c + 1)
          (compileExpr env (base + codeLen c + 1) rd a) := by
        have h := hseg.left.left.right
        rwa [List.length_append, List.length_singleton, compileExpr_length,
          ← Nat.add_assoc] at h
      have hsegJ : Segment prog (base + codeLen c + 1 + codeLen a)
          [Instr.jmp (base + codeLen c + 1 + codeLen a + 1 + codeLen b)] := by
        have h := hseg.left.right
        rwa [List.length_append, List.length_append, List.length_singleton,
          compileExpr_length, compileExpr_length, ← Nat.add_assoc,
          ← Nat.add_assoc] at h
      have hsegB : Segment prog (base + codeLen c + 1 + codeLen a + 1)
          (compileExpr env (base + codeLen c + 1 + codeLen a + 1) rd b) := by
        have h := hseg.right
        rwa [List.length_append, List.length_append, List.length_append,
          List.length_singleton, List.length_singleton, compileExpr_length,
          compileExpr_length, ← Nat.add_assoc, ← Nat.add_assoc,
          ← Nat.add_assoc] at h
      obtain ⟨hc1, hc2, hc3, hc4, hc5, hc6, hc7⟩ := ihc base rd s hh hpc hsegC
      have hbr : prog[(run prog inp (evalE (estore env s) inp c).2.2 s).pc]?
          = some (.brFalse rd (base + codeLen c + 1 + codeLen a + 1)) := by
        rw [hc2]; exact hsegBr.head
      have hs2 := run1_brFalse inp hc1 hbr
      by_cases hvc : (evalE (estore env s) inp c).1 = 0
      · -- condition false: the else arm runs, the then arm is skipped
        have hh2 : (run prog inp 1
            (run prog inp (evalE (estore env s) inp c).2.2 s)).halted = false := by
          rw [hs2]; exact hc1
        have hpc2 : (run prog inp 1
            (run prog inp (evalE (estore env s) inp c).2.2 s)).pc
            = base + codeLen c + 1 + codeLen a + 1 := by
          rw [hs2]
          simp only [MState.pc]
          rw [hc3, if_pos hvc]
        obtain ⟨hb1, hb2, hb3, hb4, hb5, hb6, hb7⟩ :=
          ihb (base + codeLen c + 1 + codeLen a + 1) rd
            (run prog inp 1 (run prog inp (evalE (estore env s) inp c).2.2 s))
            hh2 hpc2 hsegB
        have hstore : estore env (run prog inp 1
            (run prog inp (evalE (estore env s) inp c).2.2 s)) = estore env s := by
          refine estore_congr ?_
          rw [hs2]
          simpa using hc5
        rw [hstore] at hb1 hb2 hb3 hb4 hb5 hb6 hb7
        unfold RunsTo
        rw [show (evalE (estore env s) inp (Expr.tern c a b)).2.2
              = (evalE (estore env s) inp c).2.2 + 1
                + (evalE (estore env s) inp b).2.2 from by simp [evalE, hvc],
          show (evalE (estore env s) inp (Expr.tern c a b)).1
              = (evalE (estore env s) inp b).1 from by simp [evalE, hvc],
          show (evalE (estore env s) inp (Expr.tern c a b)).2.1
              = (evalE (estore env s) inp c).2.1
                ++ (evalE (estore env s) inp b).2.1 from by simp [evalE, hvc],
          run_add prog inp ((evalE (estore env s) inp c).2.2 + 1)
            (evalE (estore env s) inp b).2.2,
          run_add prog inp (evalE (estore env s) inp c).2.2 1]
        refine ⟨hb1, ?_, hb3, ?_, ?_, ?_, ?_⟩
        · rw [hb2]
          simp [codeLen]
          omega
        · intro q hq
          rw [hb4 q hq, hs2]
          simpa using hc4 q hq
        · rw [hb5, hs2]
          simpa using hc5
        · rw [hb6, hs2]
          simpa using hc6
        · rw [hb7, hs2]
          simp only [MState.events]
          rw [hc7, List.append_assoc]
      · -- condition true: the then arm runs, then jumps past the else arm
        have hh2 : (run prog inp 1
            (run prog inp (evalE (estore env s) inp c).2.2 s)).halted = false := by
          rw [hs2]; exact hc1
        have hpc2 : (run prog inp 1
            (run prog inp (evalE (estore env s) inp c).2.2 s)).pc
            = base + codeLen c + 1 := by
          rw [hs2]
          simp only [MState.pc]
          rw [hc3, if_neg hvc, hc2]
        obtain ⟨ha1, ha2, ha3, ha4, ha5, ha6, ha7⟩ :=
          iha (base + codeLen c + 1) rd
            (run prog inp 1 (run prog inp (evalE (estore env s) inp c).2.2 s))
            hh2 hpc2 hsegA
        have hstore : estore env (run prog inp 1
            (run prog inp (evalE (estore env s) inp c).2.2 s)) = estore env s := by
          refine estore_congr ?_
          rw [hs2]
          simpa using hc5
        rw [hstore] at ha1 ha2 ha3 ha4 ha5 ha6 ha7
        have hj : prog[(run prog inp (evalE (estore env s) inp a).2.2
            (run prog inp 1
              (run prog inp (evalE (estore env s) inp c).2.2 s))).pc]?
            = some (.jmp (base + codeLen c + 1 + codeLen a + 1 + codeLen b)) := by
          rw [ha2]; exact hsegJ.head
        unfold RunsTo
        rw [show (evalE (estore env s) inp (Expr.tern c a b)).2.2
              = (evalE (estore env s) inp c).2.2 + 1
                + (evalE (estore env s) inp a).2.2 + 1 from by simp [evalE, hvc],
          show (evalE (estore env s) inp (Expr.tern c a b)).1
              = (evalE (estore env s) inp a).1 from by simp [evalE, hvc],
          show (evalE (estore env s) inp (Expr.tern c a b)).2.1
              = (evalE (estore env s) inp c).2.1
                ++ (evalE (estore env s) inp a).2.1 from by simp [evalE, hvc],
          run_add prog inp ((evalE (estore env s) inp c).2.2 + 1
            + (evalE (estore env s) inp a).2.2) 1,
          run_add prog inp ((evalE (estore env s) inp c).2.2 + 1)
            (evalE (estore env s) inp a).2.2,
          run_add prog inp (evalE (estore env s) inp c).2.2 1,
          run1_jmp inp ha1 hj]
        refine ⟨ha1, ?_, ha3, ?_, ?_, ?_, ?_⟩
        · simp only [MState.pc]
          simp [codeLen]
          omega
        · intro q hq
          simp only [MState.regs]
          rw [ha4 q hq, hs2]
          simpa using hc4 q hq
        · simp only [MState.slots]
          rw [ha5, hs2]
          simpa using hc5
        · simp only [MState.saved]
          rw [ha6, hs2]
          simpa using hc6
        · simp only [MState.events]
          rw [ha7, hs2]
          simp only [MState.events]
          rw [hc7, List.append_assoc]
  | castE t e ihe =>
      intro base rd s hh hpc hseg
      have h := ihe base rd s hh hpc (by simpa [compileExpr] using hseg)
      simpa [evalE, codeLen] using h

/-! ## Canonical states for executing the embedded programs

The compiled example programs use registers 0–1 and at most four frame
slots, so every state reached has the compact shape `CSt` below; one
step lemma per instruction shape lets `simp` execute the machine
symbolically without the state term growing. -/

/-- A register file holding `r0`, `r1` and zero elsewhere. -/
def regFun (r0 r1 : Nat) : Nat → Nat :=
  fun r => if r = 0 then r0 else if r = 1 then r1 else 0

/-- A frame holding four slots and zero elsewhere. -/
def slotFun (s0 s1 s2 s3 : Nat) : Nat → Nat :=
  fun q => if q = 0 then s0 else if q = 1 then s1 else
    if q = 2 then s2 else if q = 3 then s3 else 0

/-- The canonical compact machine state. -/
def CSt (pc r0 r1 s0 s1 s2 s3 : Nat) (sv : List ((Nat → Nat) × Nat))
    (ev : List PEvent) (tr : List Nat) (h : Bool) : MState :=
  ⟨pc, regFun r0 r1, slotFun s0 s1 s2 s3, sv, ev, tr, h⟩

theorem initState_CSt (entry : Nat) : initState entry = CSt entry 0 0 0 0 0 0 [] [] [] false := by
  simp only [initState, CSt]
  congr 1
  · funext r
    simp [regFun]
  · funext q
    simp [slotFun]

theorem step_CSt_loadImm {prog : List Instr} {inp : Nat → Nat}
    {pc r0 r1 s0 s1 s2 s3 : Nat} {sv : List ((Nat → Nat) × Nat)}
    {ev : List PEvent} {tr : List Nat} {rd imm : Nat}
    (hpc : prog[pc]? = some (.loadImm rd imm)) (hrd : rd < 2) :
    step prog inp (CSt pc r0 r1 s0 s1 s2 s3 sv ev tr false) =
      CSt (pc + 1) (if rd = 0 then imm else r0) (if rd = 1 then imm else r1)
        s0 s1 s2 s3 sv ev (tr ++ [pc]) false := by
  simp only [step, CSt, hpc, exec, Bool.false_eq_true, if_false]
  congr 1
  funext r
  interval_cases rd <;>
    by_cases h0 : r = 0 <;> by_cases h1 : r = 1 <;> simp_all [regFun]

theorem step_CSt_loadSlot {prog : List Instr} {inp : Nat → Nat}
    {pc r0 r1 s0 s1 s2 s3 : Nat} {sv : List ((Nat → Nat) × Nat)}
    {ev : List PEvent} {tr : List Nat} {rd sl : Nat}
    (hpc : prog[pc]? = some (.loadSlot rd sl)) (hrd : rd < 2) :
    step prog inp (CSt pc r0 r1 s0 s1 s2 s3 sv ev tr false) =
      CSt (pc + 1)
        (if rd = 0 then slotFun s0 s1 s2 s3 sl else r0)
        (if rd = 1 then slotFun s0 s1 s2 s3 sl else r1)
        s0 s1 s2 s3 sv ev (tr ++ [pc]) false := by
  simp only [step, CSt, hpc, exec, Bool.false_eq_true, if_false]
  congr 1
  funext r
  interval_cases rd <;>
    by_cases h0 : r = 0 <;> by_cases h1 : r = 1 <;> simp_all [regFun]

theorem step_CSt_storeSlot {prog : List Instr} {inp : Nat → Nat}
    {pc r0 r1 s0 s1 s2 s3 : Nat} {sv : List ((Nat → Nat) × Nat)}
    {ev : List PEvent} {tr : List Nat} {sl rs : Nat}
    (hpc : prog[pc]? = some (.storeSlot sl rs)) (hsl : sl < 4) :
    step prog inp (CSt pc r0 r1 s0 s1 s2 s3 sv ev tr false) =
      CSt (pc + 1) r0 r1
        (if sl = 0 then regFun r0 r1 rs else s0)
        (if sl = 1 then regFun r0 r1 rs else s1)
        (if sl = 2 then regFun r0 r1 rs else s2)
        (if sl = 3 then regFun r0 r1 rs else s3)
        sv ev (tr ++ [pc]) false := by
  simp only [step, CSt, hpc, exec, Bool.false_eq_true, if_false]
  congr 1
  funext q
  interval_cases sl <;>
    by_cases h0 : q = 0 <;> by_cases h1 : q = 1 <;> by_cases h2 : q = 2 <;>
      by_cases h3 : q = 3 <;> simp_all [slotFun, regFun]

theorem step_CSt_portRead {prog : List Instr} {inp : Nat → Nat}
    {pc r0 r1 s0 s1 s2 s3 : Nat} {sv : List ((Nat → Nat) × Nat)}
    {ev : List PEvent} {tr : List Nat} {rd p : Nat}
    (hpc : prog[pc]? = some (.portRead rd p)) (hrd : rd < 2) :
    step prog inp (CSt pc r0 r1 s0 s1 s2 s3 sv ev tr false) =
      CSt (pc + 1) (if rd = 0 then inp p % 256 else r0)
        (if rd = 1 then inp p % 256 else r1)
        s0 s1 s2 s3 sv (ev ++ [.readE p (inp p % 256)]) (tr ++ [pc]) false := by
  simp only [step, CSt, hpc, exec, Bool.false_eq_true, if_false]
  congr 1
  funext r
  interval_cases rd <;>
    by_cases h0 : r = 0 <;> by_cases h1 : r = 1 <;> simp_all [regFun]

theorem step_CSt_portWrite {prog : List Instr} {inp : Nat → Nat}
    {pc r0 r1 s0 s1 s2 s3 : Nat} {sv : List ((Nat → Nat) × Nat)}
    {ev : List PEvent} {tr : List Nat} {p : Nat}
    (hpc : prog[pc]? = some (.portWrite p 0)) :
    step prog inp (CSt pc r0 r1 s0 s1 s2 s3 sv ev tr false) =
      CSt (pc + 1) r0 r1 s0 s1 s2 s3 sv (ev ++ [.writeE p r0]) (tr ++ [pc]) false := by
  simp only [step, CSt, hpc, exec, Bool.false_eq_true, if_false]
  congr 1

theorem step_CSt_cmpR {prog : List Instr} {inp : Nat → Nat}
    {pc r0 r1 s0 s1 s2 s3 : Nat} {sv : List ((Nat → Nat) × Nat)}
    {ev : List PEvent} {tr : List Nat} {k : CmpKind} {sgn : Bool}
    (hpc : prog[pc]? = some (.cmpR k sgn 0 1)) :
    step prog inp (CSt pc r0 r1 s0 s1 s2 s3 sv ev tr false) =
      CSt (pc + 1) (if cmpHolds k sgn r0 r1 then 1 else 0) r1
        s0 s1 s2 s3 sv ev (tr ++ [pc]) false := by
  simp only [step, CSt, hpc, exec, Bool.false_eq_true, if_false]
  congr 1
  funext r
  by_cases h0 : r = 0 <;> by_cases h1 : r = 1 <;> simp_all [regFun]

theorem step_CSt_addR {prog : List Instr} {inp : Nat → Nat}
    {pc r0 r1 s0 s1 s2 s3 : Nat} {sv : List ((Nat → Nat) × Nat)}
    {ev : List PEvent} {tr : List Nat}
    (hpc : prog[pc]? = some (.addR 0 1)) :
    step prog inp (CSt pc r0 r1 s0 s1 s2 s3 sv ev tr false) =
      CSt (pc + 1) (byteAdd r0 r1) r1 s0 s1 s2 s3 sv ev (tr ++ [pc]) false := by
  simp only [step, CSt, hpc, exec, Bool.false_eq_true, if_false]
  congr 1
  funext r
  by_cases h0 : r = 0 <;> by_cases h1 : r = 1 <;> simp_all [regFun]

theorem step_CSt_subR {prog : List Instr} {inp : Nat → Nat}
    {pc r0 r1 s0 s1 s2 s3 : Nat} {sv : List ((Nat → Nat) × Nat)}
    {ev : List PEvent} {tr : List Nat}
    (hpc : prog[pc]? = some (.subR 0 1)) :
    step prog inp (CSt pc r0 r1 s0 s1 s2 s3 sv ev tr false) =
      CSt (pc + 1) (byteSub r0 r1) r1 s0 s1 s2 s3 sv ev (tr ++ [pc]) false := by
  simp only [step, CSt, hpc, exec, Bool.false_eq_true, if_false]
  congr 1
  funext r
  by_cases h0 : r = 0 <;> by_cases h1 : r = 1 <;> simp_all [regFun]

theorem step_CSt_brFalse {prog : List Instr} {inp : Nat → Nat}
    {pc r0 r1 s0 s1 s2 s3 : Nat} {sv : List ((Nat → Nat) × Nat)}
    {ev : List PEvent} {tr : List Nat} {tgt : Nat}
    (hpc : prog[pc]? = some (.brFalse 0 tgt)) :
    step prog inp (CSt pc r0 r1 s0 s1 s2 s3 sv ev tr false) =
      CSt (if r0 = 0 then tgt else pc + 1) r0 r1 s0 s1 s2 s3 sv ev
        (tr ++ [pc]) false := by
  simp only [step, CSt, hpc, exec, Bool.false_eq_true, if_false]
  congr 1

theorem step_CSt_jmp {prog : List Instr} {inp : Nat → Nat}
    {pc r0 r1 s0 s1 s2 s3 : Nat} {sv : List ((Nat → Nat) × Nat)}
    {ev : List PEvent} {tr : List Nat} {tgt : Nat}
    (hpc : prog[pc]? = some (.jmp tgt)) :
    step prog inp (CSt pc r0 r1 s0 s1 s2 s3 sv ev tr false) =
      CSt tgt r0 r1 s0 s1 s2 s3 sv ev (tr ++ [pc]) false := by
  simp only [step, CSt, hpc, exec, Bool.false_eq_true, if_false]

theorem step_CSt_callI {prog : List Instr} {inp : Nat → Nat}
    {pc r0 r1 s0 s1 s2 s3 : Nat} {sv : List ((Nat → Nat) × Nat)}
    {ev : List PEvent} {tr : List Nat} {tgt : Nat}
    (hpc : prog[pc]? = some (.callI tgt)) :
    step prog inp (CSt pc r0 r1 s0 s1 s2 s3 sv ev tr false) =
      CSt tgt r0 r1 0 0 0 0 ((slotFun s0 s1 s2 s3, pc + 1) :: sv) ev
        (tr ++ [pc]) false := by
  simp only [step, CSt, hpc, exec, Bool.false_eq_true, if_false]
  congr 1
  funext q
  simp [slotFun]

theorem step_CSt_retI {prog : List Instr} {inp : Nat → Nat}
    {pc r0 r1 s0 s1 s2 s3 t0 t1 t2 t3 rpc : Nat}
    {sv : List ((Nat → Nat) × Nat)} {ev : List PEvent} {tr : List Nat}
    (hpc : prog[pc]? = some .retI) :
    step prog inp (CSt pc r0 r1 s0 s1 s2 s3 ((slotFun t0 t1 t2 t3, rpc) :: sv) ev tr false) =
      CSt rpc r0 r1 t0 t1 t2 t3 sv ev (tr ++ [pc]) false := by
  simp only [step, CSt, hpc, exec, Bool.false_eq_true, if_false]

theorem step_CSt_haltI {prog : List Instr} {inp : Nat → Nat}
    {pc r0 r1 s0 s1 s2 s3 : Nat} {sv : List ((Nat → Nat) × Nat)}
    {ev : List PEvent} {tr : List Nat}
    (hpc : prog[pc]? = some .haltI) :
    step prog inp (CSt pc r0 r1 s0 s1 s2 s3 sv ev tr false) =
      CSt pc r0 r1 s0 s1 s2 s3 sv ev (tr ++ [pc]) true := by
  simp only [step, CSt, hpc, exec, Bool.false_eq_true, if_false]

theorem step_CSt_halted {prog : List Instr} {inp : Nat → Nat}
    {pc r0 r1 s0 s1 s2 s3 : Nat} {sv : List ((Nat → Nat) × Nat)}
    {ev : List PEvent} {tr : List Nat} :
    step prog inp (CSt pc r0 r1 s0 s1 s2 s3 sv ev tr true) =
      CSt pc r0 r1 s0 s1 s2 s3 sv ev tr true := by
  simp [step, CSt]

theorem CSt_events (pc r0 r1 s0 s1 s2 s3 : Nat) (sv : List ((Nat → Nat) × Nat))
    (ev : List PEvent) (tr : List Nat) (h : Bool) :
    (CSt pc r0 r1 s0 s1 s2 s3 sv ev tr h).events = ev := rfl

theorem CSt_trace (pc r0 r1 s0 s1 s2 s3 : Nat) (sv : List ((Nat → Nat) × Nat))
    (ev : List PEvent) (tr : List Nat) (h : Bool) :
    (CSt pc r0 r1 s0 s1 s2 s3 sv ev tr h).trace = tr := rfl

theorem CSt_slots_at (pc r0 r1 s0 s1 s2 s3 : Nat) (sv : List ((Nat → Nat) × Nat))
    (ev : List PEvent) (tr : List Nat) (h : Bool) (q : Nat) :
    (CSt pc r0 r1 s0 s1 s2 s3 sv ev tr h).slots q = slotFun s0 s1 s2 s3 q := rfl

theorem CSt_halted (pc r0 r1 s0 s1 s2 s3 : Nat) (sv : List ((Nat → Nat) × Nat))
    (ev : List PEvent) (tr : List Nat) (h : Bool) :
    (CSt pc r0 r1 s0 s1 s2 s3 sv ev tr h).halted = h := rfl

theorem slotFun_at0 (s0 s1 s2 s3 : Nat) : slotFun s0 s1 s2 s3 0 = s0 := rfl
theorem slotFun_at1 (s0 s1 s2 s3 : Nat) : slotFun s0 s1 s2 s3 1 = s1 := rfl
theorem slotFun_at2 (s0 s1 s2 s3 : Nat) : slotFun s0 s1 s2 s3 2 = s2 := rfl
theorem slotFun_at3 (s0 s1 s2 s3 : Nat) : slotFun s0 s1 s2 s3 3 = s3 := rfl
theorem regFun_at0 (r0 r1 : Nat) : regFun r0 r1 0 = r0 := rfl
theorem regFun_at1 (r0 r1 : Nat) : regFun r0 r1 1 = r1 := rfl

theorem step_CSt_portRead0 {prog : List Instr} {inp : Nat → Nat}
    {pc r0 r1 s0 s1 s2 s3 : Nat} {sv : List ((Nat → Nat) × Nat)}
    {ev : List PEvent} {tr : List Nat} {p : Nat}
    (hpc : prog[pc]? = some (.portRead 0 p)) :
    step prog inp (CSt pc r0 r1 s0 s1 s2 s3 sv ev tr false) =
      CSt (pc + 1) (inp p % 256) r1 s0 s1 s2 s3 sv
        (ev ++ [.readE p (inp p % 256)]) (tr ++ [pc]) false := by
  simpa using step_CSt_portRead hpc (by norm_num)

theorem step_CSt_loadImm0 {prog : List Instr} {inp : Nat → Nat}
    {pc r0 r1 s0 s1 s2 s3 : Nat} {sv : List ((Nat → Nat) × Nat)}
    {ev : List PEvent} {tr : List Nat} {imm : Nat}
    (hpc : prog[pc]? = some (.loadImm 0 imm)) :
    step prog inp (CSt pc r0 r1 s0 s1 s2 s3 sv ev tr false) =
      CSt (pc + 1) imm r1 s0 s1 s2 s3 sv ev (tr ++ [pc]) false := by
  simpa using step_CSt_loadImm hpc (by norm_num)

theorem step_CSt_loadImm1 {prog : List Instr} {inp : Nat → Nat}
    {pc r0 r1 s0 s1 s2 s3 : Nat} {sv : List ((Nat → Nat) × Nat)}
    {ev : List PEvent} {tr : List Nat} {imm : Nat}
    (hpc : prog[pc]? = some (.loadImm 1 imm)) :
    step prog inp (CSt pc r0 r1 s0 s1 s2 s3 sv ev tr false) =
      CSt (pc + 1) r0 imm s0 s1 s2 s3 sv ev (tr ++ [pc]) false := by
  simpa using step_CSt_loadImm hpc (by norm_num)

theorem step_CSt_loadSlot0 {prog : List Instr} {inp : Nat → Nat}
    {pc r0 r1 s0 s1 s2 s3 : Nat} {sv : List ((Nat → Nat) × Nat)}
    {ev : List PEvent} {tr : List Nat} {sl : Nat}
    (hpc : prog[pc]? = some (.loadSlot 0 sl)) :
    step prog inp (CSt pc r0 r1 s0 s1 s2 s3 sv ev tr false) =
      CSt (pc + 1) (slotFun s0 s1 s2 s3 sl) r1 s0 s1 s2 s3 sv ev (tr ++ [pc]) false := by
  simpa using step_CSt_loadSlot hpc (by norm_num)

theorem step_CSt_loadSlot1 {prog : List Instr} {inp : Nat → Nat}
    {pc r0 r1 s0 s1 s2 s3 : Nat} {sv : List ((Nat → Nat) × Nat)}
    {ev : List PEvent} {tr : List Nat} {sl : Nat}
    (hpc : prog[pc]? = some (.loadSlot 1 sl)) :
    step prog inp (CSt pc r0 r1 s0 s1 s2 s3 sv ev tr false) =
      CSt (pc + 1) r0 (slotFun s0 s1 s2 s3 sl) s0 s1 s2 s3 sv ev (tr ++ [pc]) false := by
  simpa using step_CSt_loadSlot hpc (by norm_num)

theorem step_CSt_storeSlot00 {prog : List Instr} {inp : Nat → Nat}
    {pc r0 r1 s0 s1 s2 s3 : Nat} {sv : List ((Nat → Nat) × Nat)}
    {ev : List PEvent} {tr : List Nat}
    (hpc : prog[pc]? = some (.storeSlot 0 0)) :
    step prog inp (CSt pc r0 r1 s0 s1 s2 s3 sv ev tr false) =
      CSt (pc + 1) r0 r1 r0 s1 s2 s3 sv ev (tr ++ [pc]) false := by
  simpa [regFun] using step_CSt_storeSlot hpc (by norm_num)

theorem step_CSt_storeSlot10 {prog : List Instr} {inp : Nat → Nat}
    {pc r0 r1 s0 s1 s2 s3 : Nat} {sv : List ((Nat → Nat) × Nat)}
    {ev : List PEvent} {tr : List Nat}
    (hpc : prog[pc]? = some (.storeSlot 1 0)) :
    step prog inp (CSt pc r0 r1 s0 s1 s2 s3 sv ev tr false) =
      CSt (pc + 1) r0 r1 s0 r0 s2 s3 sv ev (tr ++ [pc]) false := by
  simpa [regFun] using step_CSt_storeSlot hpc (by norm_num)

theorem step_CSt_storeSlot11 {prog : List Instr} {inp : Nat → Nat}
    {pc r0 r1 s0 s1 s2 s3 : Nat} {sv : List ((Nat → Nat) × Nat)}
    {ev : List PEvent} {tr : List Nat}
    (hpc : prog[pc]? = some (.storeSlot 1 1)) :
    step prog inp (CSt pc r0 r1 s0 s1 s2 s3 sv ev tr false) =
      CSt (pc + 1) r0 r1 s0 r1 s2 s3 sv ev (tr ++ [pc]) false := by
  simpa [regFun] using step_CSt_storeSlot hpc (by norm_num)

theorem step_CSt_storeSlot20 {prog : List Instr} {inp : Nat → Nat}
    {pc r0 r1 s0 s1 s2 s3 : Nat} {sv : List ((Nat → Nat) × Nat)}
    {ev : List PEvent} {tr : List Nat}
    (hpc : prog[pc]? = some (.storeSlot 2 0)) :
    step prog inp (CSt pc r0 r1 s0 s1 s2 s3 sv ev tr false) =
      CSt (pc + 1) r0 r1 s0 s1 r0 s3 sv ev (tr ++ [pc]) false := by
  simpa [regFun] using step_CSt_storeSlot hpc (by norm_num)

theorem step_CSt_storeSlot30 {prog : List Instr} {inp : Nat → Nat}
    {pc r0 r1 s0 s1 s2 s3 : Nat} {sv : List ((Nat → Nat) × Nat)}
    {ev : List PEvent} {tr : List Nat}
    (hpc : prog[pc]? = some (.storeSlot 3 0)) :
    step prog inp (CSt pc r0 r1 s0 s1 s2 s3 sv ev tr false) =
      CSt (pc + 1) r0 r1 s0 s1 s2 r0 sv ev (tr ++ [pc]) false := by
  simpa [regFun] using step_CSt_storeSlot hpc (by norm_num)

theorem step_CSt_cmpEq {prog : List Instr} {inp : Nat → Nat}
    {pc r0 r1 s0 s1 s2 s3 : Nat} {sv : List ((Nat → Nat) × Nat)}
    {ev : List PEvent} {tr : List Nat}
    (hpc : prog[pc]? = some (.cmpR .ceq false 0 1)) :
    step prog inp (CSt pc r0 r1 s0 s1 s2 s3 sv ev tr false) =
      CSt (pc + 1) (if r0 = r1 then 1 else 0) r1 s0 s1 s2 s3 sv ev (tr ++ [pc]) false := by
  rw [step_CSt_cmpR hpc]
  simp [cmpHolds]

/-- The calculator's generated stream, written out (the model's output on
the embedded calculator.c AST). -/
theorem calcProg_eq : calcProg =
    [.storeSlot 0 0, .storeSlot 1 1, .loadSlot 0 0, .loadSlot 1 1, .addR 0 1, .retI,
     .storeSlot 0 0, .storeSlot 1 1, .loadSlot 0 0, .loadSlot 1 1, .subR 0 1, .retI,
     .portRead 0 0, .storeSlot 0 0, .portRead 0 1, .storeSlot 1 0, .portRead 0 2,
     .storeSlot 2 0, .loadSlot 0 2, .loadImm 1 1, .cmpR .ceq false 0 1, .brFalse 0 27,
     .loadSlot 0 0, .loadSlot 1 1, .callI 0, .storeSlot 3 0, .jmp 38, .loadSlot 0 2,
     .loadImm 1 2, .cmpR .ceq false 0 1, .brFalse 0 36, .loadSlot 0 0, .loadSlot 1 1,
     .callI 6, .storeSlot 3 0, .jmp 38, .loadImm 0 255, .storeSlot 3 0, .loadSlot 0 3,
     .portWrite 3 0, .haltI] := by rfl

theorem calcEntry_eq : calcEntry = 12 := by rfl

set_option maxHeartbeats 1600000 in
/-- Run of the calculator when port 2 presents 1: the `add` branch. -/
theorem calcRun1 (inp : Nat → Nat) (hop : inp 2 % 256 = 1) :
    (calcFinal inp).events =
      [.readE 0 (inp 0 % 256), .readE 1 (inp 1 % 256), .readE 2 1,
       .writeE 3 (byteAdd (inp 0 % 256) (inp 1 % 256))] ∧
    (calcFinal inp).trace =
      [12, 13, 14, 15, 16, 17, 18, 19, 20, 21, 22, 23, 24, 0, 1, 2, 3, 4, 5,
       25, 26, 38, 39, 40] := by
  unfold calcFinal
  rw [calcEntry_eq, initState_CSt]
  constructor <;>
  simp [calcProg_eq, run, hop,
    step_CSt_portRead0, step_CSt_storeSlot00, step_CSt_storeSlot10, step_CSt_storeSlot11,
    step_CSt_storeSlot20, step_CSt_storeSlot30, step_CSt_loadSlot0, step_CSt_loadSlot1,
    step_CSt_loadImm0, step_CSt_loadImm1,
    step_CSt_cmpEq, step_CSt_brFalse, step_CSt_jmp, step_CSt_callI, step_CSt_retI,
    step_CSt_addR, step_CSt_subR, step_CSt_portWrite, step_CSt_haltI, step_CSt_halted,
    CSt_events, CSt_trace, slotFun_at0, slotFun_at1, slotFun_at2, slotFun_at3,
    regFun_at0, regFun_at1]

set_option maxHeartbeats 1600000 in
/-- Run of the calculator when port 2 presents 2: the `subtract` branch. -/
theorem calcRun2 (inp : Nat → Nat) (hop : inp 2 % 256 = 2) :
    (calcFinal inp).events =
      [.readE 0 (inp 0 % 256), .readE 1 (inp 1 % 256), .readE 2 2,
       .writeE 3 (byteSub (inp 0 % 256) (inp 1 % 256))] ∧
    (calcFinal inp).trace =
      [12, 13, 14, 15, 16, 17, 18, 19, 20, 21, 27, 28, 29, 30, 31, 32, 33,
       6, 7, 8, 9, 10, 11, 34, 35, 38, 39, 40] := by
  unfold calcFinal
  rw [calcEntry_eq, initState_CSt]
  constructor <;>
  simp [calcProg_eq, run, hop,
    step_CSt_portRead0, step_CSt_storeSlot00, step_CSt_storeSlot10, step_CSt_storeSlot11,
    step_CSt_storeSlot20, step_CSt_storeSlot30, step_CSt_loadSlot0, step_CSt_loadSlot1,
    step_CSt_loadImm0, step_CSt_loadImm1,
    step_CSt_cmpEq, step_CSt_brFalse, step_CSt_jmp, step_CSt_callI, step_CSt_retI,
    step_CSt_addR, step_CSt_subR, step_CSt_portWrite, step_CSt_haltI, step_CSt_halted,
    CSt_events, CSt_trace, slotFun_at0, slotFun_at1, slotFun_at2, slotFun_at3,
    regFun_at0, regFun_at1]

set_option maxHeartbeats 1600000 in
/-- Run of the calculator when port 2 presents neither 1 nor 2: the
`else` branch writes the 0xFF error code. -/
theorem calcRunE (inp : Nat → Nat) (h1 : inp 2 % 256 ≠ 1) (h2 : inp 2 % 256 ≠ 2) :
    (calcFinal inp).events =
      [.readE 0 (inp 0 % 256), .readE 1 (inp 1 % 256), .readE 2 (inp 2 % 256),
       .writeE 3 255] ∧
    (calcFinal inp).trace =
      [12, 13, 14, 15, 16, 17, 18, 19, 20, 21, 27, 28, 29, 30, 36, 37,
       38, 39, 40] := by
  unfold calcFinal
  rw [calcEntry_eq, initState_CSt]
  constructor <;>
  simp [calcProg_eq, run, h1, h2,
    step_CSt_portRead0, step_CSt_storeSlot00, step_CSt_storeSlot10, step_CSt_storeSlot11,
    step_CSt_storeSlot20, step_CSt_storeSlot30, step_CSt_loadSlot0, step_CSt_loadSlot1,
    step_CSt_loadImm0, step_CSt_loadImm1,
    step_CSt_cmpEq, step_CSt_brFalse, step_CSt_jmp, step_CSt_callI, step_CSt_retI,
    step_CSt_addR, step_CSt_subR, step_CSt_portWrite, step_CSt_haltI, step_CSt_halted,
    CSt_events, CSt_trace, slotFun_at0, slotFun_at1, slotFun_at2, slotFun_at3,
    regFun_at0, regFun_at1]

theorem CSt_regs_at (pc r0 r1 s0 s1 s2 s3 : Nat) (sv : List ((Nat → Nat) × Nat))
    (ev : List PEvent) (tr : List Nat) (h : Bool) (q : Nat) :
    (CSt pc r0 r1 s0 s1 s2 s3 sv ev tr h).regs q = regFun r0 r1 q := rfl

/-! ## Further embedded programs (variables.c fragments) -/

/-- `bool b = true; uint8 x = b; write_port(1, x);` — the accepted
direction of the bool/uint8 conversion (variables.c lines 120, 196–197
pattern). -/
def boolToU8Main : FuncDecl :=
  { name := "main", params := [], retTy := .void,
    body := .seq (.decl "b" .bool (.blit true))
            (.seq (.decl "x" .uint8 (.var "b"))
            (.seq (.out 1 (.var "x")) .haltS)) }

/-- The accepted program as a whole. -/
def boolToU8Prog : List FuncDecl := [boolToU8Main]

/-- `uint8 y = 2; bool c = y;` — the rejected direction. -/
def u8ToBoolMain : FuncDecl :=
  { name := "main", params := [], retTy := .void,
    body := .seq (.decl "y" .uint8 (.lit 2))
            (.seq (.decl "c" .bool (.var "y")) .haltS) }

/-- The rejected program as a whole. -/
def u8ToBoolProg : List FuncDecl := [u8ToBoolMain]

/-- `uint8 y = 2; bool c = (bool)y;` — accepted via an explicit cast. -/
def u8ToBoolCastMain : FuncDecl :=
  { name := "main", params := [], retTy := .void,
    body := .seq (.decl "y" .uint8 (.lit 2))
            (.seq (.decl "c" .bool (.castE .bool (.var "y"))) .haltS) }

/-- `uint8 y = 2; bool c = (y <= 100);` — accepted via an explicit
comparison (the variables.c line 197 pattern). -/
def u8ToBoolCmpMain : FuncDecl :=
  { name := "main", params := [], retTy := .void,
    body := .seq (.decl "y" .uint8 (.lit 2))
            (.seq (.decl "c" .bool (.cmp .cle false (.var "y") (.lit 100))) .haltS) }

/-- variables.c lines 101–106: `int8 temperature = -25; int8 delta = 5;
int8 result = 0; result = temperature + delta;`, plus the later
`write_port(0x02, (uint8)result)` (line 211). -/
def signedAddMain : FuncDecl :=
  { name := "main", params := [], retTy := .void,
    body := .seq (.decl "temperature" .int8 (.neg (.lit 25)))
            (.seq (.decl "delta" .int8 (.lit 5))
            (.seq (.decl "result" .int8 (.lit 0))
            (.seq (.assign "result" (.bin .badd (.var "temperature") (.var "delta")))
            (.seq (.out 2 (.castE .uint8 (.var "result"))) .haltS)))) }

/-- The signed-addition tutorial fragment as a program. -/
def signedAddProg : List FuncDecl := [signedAddMain]

theorem boolToU8Prog_eq : genProgram boolToU8Prog =
    [.loadImm 0 1, .storeSlot 0 0, .loadSlot 0 0, .storeSlot 1 0, .loadSlot 0 1,
     .portWrite 1 0, .haltI] := by rfl

theorem signedAddProg_eq : genProgram signedAddProg =
    [.loadImm 0 0, .loadImm 1 25, .subR 0 1, .storeSlot 0 0, .loadImm 0 5,
     .storeSlot 1 0, .loadImm 0 0, .storeSlot 2 0, .loadSlot 0 0, .loadSlot 1 1,
     .addR 0 1, .storeSlot 2 0, .loadSlot 0 2, .portWrite 2 0, .haltI] := by rfl

/-- Run of the accepted bool→uint8 program: `x` (slot 1) ends holding 1
and port 1 receives 1 (true converts to 1). -/
theorem boolToU8Run (inp : Nat → Nat) :
    (run (genProgram boolToU8Prog) inp 8 (initState (entryPoint boolToU8Prog))).slots 1 = 1 ∧
    (run (genProgram boolToU8Prog) inp 8 (initState (entryPoint boolToU8Prog))).events
      = [.writeE 1 1] := by
  rw [show entryPoint boolToU8Prog = 0 from rfl, initState_CSt]
  constructor <;>
  simp [boolToU8Prog_eq, run,
    step_CSt_portRead0, step_CSt_storeSlot00, step_CSt_storeSlot10, step_CSt_storeSlot11,
    step_CSt_storeSlot20, step_CSt_storeSlot30, step_CSt_loadSlot0, step_CSt_loadSlot1,
    step_CSt_loadImm0, step_CSt_loadImm1,
    step_CSt_cmpEq, step_CSt_brFalse, step_CSt_jmp, step_CSt_callI, step_CSt_retI,
    step_CSt_addR, step_CSt_subR, step_CSt_portWrite, step_CSt_haltI, step_CSt_halted,
    CSt_events, CSt_trace, CSt_slots_at, slotFun_at0, slotFun_at1, slotFun_at2,
    slotFun_at3, regFun_at0, regFun_at1]

/-- Run of the signed-addition fragment: `result` (slot 2) ends holding
the two's-complement byte 236, and port 2 receives it. -/
theorem signedAddRun (inp : Nat → Nat) :
    (run (genProgram signedAddProg) inp 16 (initState (entryPoint signedAddProg))).slots 2
      = 236 ∧
    (run (genProgram signedAddProg) inp 16 (initState (entryPoint signedAddProg))).events
      = [.writeE 2 236] := by
  rw [show entryPoint signedAddProg = 0 from rfl, initState_CSt]
  constructor <;>
  simp [signedAddProg_eq, run,
    step_CSt_portRead0, step_CSt_storeSlot00, step_CSt_storeSlot10, step_CSt_storeSlot11,
    step_CSt_storeSlot20, step_CSt_storeSlot30, step_CSt_loadSlot0, step_CSt_loadSlot1,
    step_CSt_loadImm0, step_CSt_loadImm1,
    step_CSt_cmpEq, step_CSt_brFalse, step_CSt_jmp, step_CSt_callI, step_CSt_retI,
    step_CSt_addR, step_CSt_subR, step_CSt_portWrite, step_CSt_haltI, step_CSt_halted,
    CSt_events, CSt_trace, CSt_slots_at, slotFun_at0, slotFun_at1, slotFun_at2,
    slotFun_at3, regFun_at0, regFun_at1, byteSub, byteAdd]

/-- Executing the compiled `add` function of the calculator (entry 0)
with arguments `a`, `b` in the argument registers: it returns to the
caller with `(a + b) % 256` in the result register. -/
theorem addFnRun (inp : Nat → Nat) (a b rpc : Nat) :
    run calcProg inp 6 (CSt 0 a b 0 0 0 0 [(slotFun 0 0 0 0, rpc)] [] [] false)
      = CSt rpc (byteAdd a b) b 0 0 0 0 [] [] [0, 1, 2, 3, 4, 5] false := by
  simp [calcProg_eq, run,
    step_CSt_portRead0, step_CSt_storeSlot00, step_CSt_storeSlot10, step_CSt_storeSlot11,
    step_CSt_storeSlot20, step_CSt_storeSlot30, step_CSt_loadSlot0, step_CSt_loadSlot1,
    step_CSt_loadImm0, step_CSt_loadImm1,
    step_CSt_cmpEq, step_CSt_brFalse, step_CSt_jmp, step_CSt_callI, step_CSt_retI,
    step_CSt_addR, step_CSt_subR, step_CSt_portWrite, step_CSt_haltI, step_CSt_halted,
    slotFun_at0, slotFun_at1, slotFun_at2, slotFun_at3, regFun_at0, regFun_at1]

/-! ## Return-coverage analysis versus control paths -/

/-- A control path that the checker accepts always returns: along any
path of a statement whose coverage analysis succeeds, the outcome is a
return. -/
theorem pathRun_returns {s : Stmt} {ds : List Bool} {r : Bool}
    (h : PathRun s ds r) (hs : stmtReturns s = true) : r = true := by
  induction h with
  | skip => simp [stmtReturns] at hs
  | decl x t e => simp [stmtReturns] at hs
  | declU x t => simp [stmtReturns] at hs
  | assign x e => simp [stmtReturns] at hs
  | callAssign x f args => simp [stmtReturns] at hs
  | out p e => simp [stmtReturns] at hs
  | ret e => rfl
  | retV => rfl
  | halt => simp [stmtReturns] at hs
  | forZero x t e0 cond stp body => simp [stmtReturns] at hs
  | seqRet b hp ih => rfl
  | seqFall hpa hpb iha ihb =>
      simp only [stmtReturns, Bool.or_eq_true] at hs
      rcases hs with hsa | hsb
      · exact absurd (iha hsa) (by simp)
      · exact ihb hsb
  | ifT c e hp ih =>
      simp only [stmtReturns, Bool.and_eq_true] at hs
      exact ih hs.1
  | ifF c t hp ih =>
      simp only [stmtReturns, Bool.and_eq_true] at hs
      exact ih hs.2

/-- A statement the coverage analysis rejects has a concrete control
path falling through without returning. -/
theorem exists_path_not_returning :
    ∀ s : Stmt, stmtReturns s = false → ∃ ds, PathRun s ds false := by
  intro s
  induction s with
  | skip => exact fun _ => ⟨[], .skip⟩
  | seq a b iha ihb =>
      intro h
      simp only [stmtReturns, Bool.or_eq_false_iff] at h
      obtain ⟨dsa, pa⟩ := iha h.1
      obtain ⟨dsb, pb⟩ := ihb h.2
      exact ⟨dsa ++ dsb, .seqFall pa pb⟩
  | decl x t e => exact fun _ => ⟨[], .decl x t e⟩
  | declU x t => exact fun _ => ⟨[], .declU x t⟩
  | assign x e => exact fun _ => ⟨[], .assign x e⟩
  | callAssign x f args => exact fun _ => ⟨[], .callAssign x f args⟩
  | ifS c t e iht ihe =>
      intro h
      by_cases ht : stmtReturns t = true
      · have he : stmtReturns e = false := by
          simpa [stmtReturns, ht] using h
        obtain ⟨dse, pe⟩ := ihe he
        exact ⟨false :: dse, .ifF c t pe⟩
      · obtain ⟨dst, pt⟩ := iht (by simpa using ht)
        exact ⟨true :: dst, .ifT c e pt⟩
  | forS x t e0 cond stp body ihs ihb =>
      exact fun _ => ⟨[], .forZero x t e0 cond stp body⟩
  | out p e => exact fun _ => ⟨[], .out p e⟩
  | ret e => intro h; simp [stmtReturns] at h
  | retV => intro h; simp [stmtReturns] at h
  | haltS => exact fun _ => ⟨[], .halt⟩

/-! ## Lexer overflow behaviour -/

/-- A well-formed numeric literal whose magnitude exceeds 255 lexes to
exactly `LiteralOverflow`. -/
theorem lexNumber_overflow (cs : List Char)
    (hne : (literalRadix cs).2 ≠ [])
    (hall : (literalRadix cs).2.all (isRadixDigit (literalRadix cs).1) = true)
    (hbig : 255 < literalMagnitude cs) :
    lexNumber cs = .error .LiteralOverflow := by
  unfold lexNumber
  unfold literalMagnitude at hbig
  rcases hrd : literalRadix cs with ⟨radix, digits⟩
  rw [hrd] at hne hall hbig
  simp only at hne hall hbig
  simp [hne, hall, Nat.not_le.mpr hbig]

/-! ## Machine addition as two's-complement signed addition -/

/-- The machine's byte addition realises two's-complement wraparound on
signed values: encode two in-range `int8` values, add with the machine's
`add` semantics, and decode — the result is the mathematical sum wrapped
into [-128, 127]. -/
theorem byteAdd_int8_wrap (x y : Int)
    (hx1 : -128 ≤ x) (hx2 : x ≤ 127) (hy1 : -128 ≤ y) (hy2 : y ≤ 127) :
    toInt8 (byteAdd (ofInt8 x) (ofInt8 y)) = (x + y + 128) % 256 - 128 := by
  unfold toInt8 byteAdd ofInt8
  split <;> omega

/-! ## The claims -/

/-- C1: For every uint8 runtime addition `a + b` whose mathematical
result exceeds 255, the generated code computes `(a + b) mod 256`
(wraparound): running the compiled `add` function on such arguments
returns the wrapped sum.  Such overflow in non-constant runtime
arithmetic is never a compile error: the runtime sum is not a constant
expression, it checks successfully against `uint8`, and the whole
calculator program (containing it) compiles.  The generated code
reproduces the target type's modular arithmetic exactly — unsigned
addition is mod 256, and on signed `int8` encodings the same machine
addition realises two's-complement wraparound. -/
theorem claim_C1 :
    (∀ (inp : Nat → Nat) (a b rpc : Nat), a < 256 → b < 256 → 255 < a + b →
      (run calcProg inp 6
        (CSt 0 a b 0 0 0 0 [(slotFun 0 0 0 0, rpc)] [] [] false)).regs 0
        = (a + b) % 256) ∧
    (constFold (.bin .badd (.var "a") (.var "b")) = none ∧
     checkAgainst [("a", .uint8), ("b", .uint8)] .uint8
       (.bin .badd (.var "a") (.var "b")) = .ok () ∧
     compileProgram calculator = .ok (calcProg, calcEntry)) ∧
    (∀ x y : Int, -128 ≤ x → x ≤ 127 → -128 ≤ y → y ≤ 127 →
      toInt8 (byteAdd (ofInt8 x) (ofInt8 y)) = (x + y + 128) % 256 - 128) := by
  refine ⟨?_, ⟨rfl, rfl, rfl⟩, fun x y hx1 hx2 hy1 hy2 =>
    byteAdd_int8_wrap x y hx1 hx2 hy1 hy2⟩
  intro inp a b rpc ha hb hover
  rw [addFnRun inp a b rpc, CSt_regs_at, regFun_at0, byteAdd]

/-- Witness for C1 at a concrete overflowing input: 200 + 100 wraps to
44, and signed 100 + 100 wraps to -56. -/
theorem claim_C1_witness :
    (200 : Nat) < 256 ∧ (100 : Nat) < 256 ∧ 255 < 200 + 100 ∧
    (run calcProg (fun _ => 0) 6
      (CSt 0 200 100 0 0 0 0 [(slotFun 0 0 0 0, 99)] [] [] false)).regs 0 = 44 ∧
    toInt8 (byteAdd (ofInt8 100) (ofInt8 100)) = -56 := by
  refine ⟨by norm_num, by norm_num, by norm_num, ?_, ?_⟩
  · have h := claim_C1.1 (fun _ => 0) 200 100 99 (by norm_num) (by norm_num) (by norm_num)
    simpa using h
  · have h := claim_C1.2.2 100 100 (by norm_num) (by norm_num) (by norm_num) (by norm_num)
    simpa using h

/-- C2: the compiler is a deterministic function of its input — two
compilations of the same program that both succeed produce byte-identical
instruction streams and the same entry index. -/
theorem claim_C2 :
    ∀ (p : List FuncDecl) (o1 o2 : List Instr × Nat),
      compileProgram p = .ok o1 → compileProgram p = .ok o2 →
      streamBytes o1.1 = streamBytes o2.1 ∧ o1.2 = o2.2 := by
  intro p o1 o2 h1 h2
  have h := h1.symm.trans h2
  injection h with h
  subst h
  exact ⟨rfl, rfl⟩

/-- Witness for C2: the calculator compiles, and the two byte streams of
its double compilation coincide. -/
theorem claim_C2_witness :
    compileProgram calculator = .ok (calcProg, calcEntry) ∧
    streamBytes calcProg = streamBytes calcProg := by
  have h := claim_C2 calculator (calcProg, calcEntry) (calcProg, calcEntry) rfl rfl
  exact ⟨rfl, h.1⟩

/-- C3: the calculator compiles successfully, and its stream contains, in
this order, the call carrying `add`'s resolved entry index (0) at index
24, the port-write to port 3 at index 39 whose source register is loaded
from the slot the call's result was stored to (indices 25 and 38), and
the terminal halt at index 40, the last instruction of the stream;
moreover in every run taking the `add` branch the final event writes
port 3 with exactly the value the call returned, `(a + b) mod 256`. -/
theorem claim_C3 :
    compileProgram calculator = .ok (calcProg, calcEntry) ∧
    (List.lookup "add" (buildFenv 0 calculator) = some 0 ∧
     calcProg[24]? = some (.callI 0)) ∧
    (calcProg[25]? = some (.storeSlot 3 0) ∧ calcProg[38]? = some (.loadSlot 0 3) ∧
     calcProg[39]? = some (.portWrite 3 0)) ∧
    (calcProg[40]? = some .haltI ∧ calcProg.length = 41) ∧
    ((24 : Nat) < 39 ∧ (39 : Nat) < 40) ∧
    (∀ inp : Nat → Nat, inp 2 % 256 = 1 →
      (calcFinal inp).events.getLast? =
        some (.writeE 3 (byteAdd (inp 0 % 256) (inp 1 % 256)))) := by
  refine ⟨rfl, ⟨rfl, rfl⟩, ⟨rfl, rfl, rfl⟩, ⟨rfl, rfl⟩, ⟨by norm_num, by norm_num⟩, ?_⟩
  intro inp h
  rw [(calcRun1 inp h).1]
  rfl

/-- Witness for C3's runtime conjunct at the all-ones input. -/
theorem claim_C3_witness :
    ((fun _ => 1) : Nat → Nat) 2 % 256 = 1 ∧
    (calcFinal (fun _ => 1)).events.getLast? = some (.writeE 3 2) := by
  refine ⟨by norm_num, ?_⟩
  have h := claim_C3.2.2.2.2.2 (fun _ => 1) (by norm_num)
  simpa using h

/-- Is the instruction a compare? -/
def isCompare : Instr → Bool
  | .cmpR .. => true
  | _ => false

/-- Does the trace visit an instruction index in `[lo, hi)`? -/
def hitsRange (tr : List Nat) (lo hi : Nat) : Bool :=
  tr.any fun k => decide (lo ≤ k) && decide (k < hi)

/-- Exactly one of three booleans is set. -/
def exactlyOne3 (b1 b2 b3 : Bool) : Bool :=
  (b1 && !b2 && !b3) || (!b1 && b2 && !b3) || (!b1 && !b2 && b3)

/-- C4: the `if / else if / else` chain over `op` lowers to two chained
compare-and-branch pairs (at indices 20–21 and 29–30) whose backpatched
targets, 27 and 36, are correctly ordered forward indices delimiting
non-overlapping blocks; the stream performs exactly two runtime compares
(no enumeration of further `op` values at compile time); and for every
input, exactly one of the three assignment blocks (indices [22,26),
[31,35), [36,38)) executes. -/
theorem claim_C4 :
    (calcProg[20]? = some (.cmpR .ceq false 0 1) ∧
     calcProg[21]? = some (.brFalse 0 27) ∧
     calcProg[29]? = some (.cmpR .ceq false 0 1) ∧
     calcProg[30]? = some (.brFalse 0 36) ∧
     (21 : Nat) < 27 ∧ (30 : Nat) < 36 ∧ (27 : Nat) < 36) ∧
    (calcProg.filter isCompare).length = 2 ∧
    (∀ inp : Nat → Nat,
      exactlyOne3 (hitsRange (calcFinal inp).trace 22 26)
        (hitsRange (calcFinal inp).trace 31 35)
        (hitsRange (calcFinal inp).trace 36 38) = true) := by
  refine ⟨⟨rfl, rfl, rfl, rfl, by norm_num, by norm_num, by norm_num⟩, rfl, ?_⟩
  intro inp
  by_cases h1 : inp 2 % 256 = 1
  · rw [(calcRun1 inp h1).2]
    rfl
  · by_cases h2 : inp 2 % 256 = 2
    · rw [(calcRun2 inp h2).2]
      rfl
    · rw [(calcRunE inp h1 h2).2]
      rfl

/-- C5: the generated code short-circuits.  For `a && b`, when `a`
evaluates to false (0) at runtime, the run of the compiled `&&` code
performs exactly `a`'s port events — no side-effecting sub-expression of
`b` executes.  Dually for `a || b` with a true left operand, and for the
ternary operator the untaken branch contributes no events in either
direction of the condition. -/
theorem claim_C5 :
    (∀ (a b : Expr) (env : Venv) (prog : List Instr) (inp : Nat → Nat)
       (base rd : Nat) (s : MState),
      s.halted = false → s.pc = base →
      Segment prog base (compileExpr env base rd (.land a b)) →
      (evalE (estore env s) inp a).1 = 0 →
      (run prog inp ((evalE (estore env s) inp a).2.2 + 1) s).events
        = s.events ++ (evalE (estore env s) inp a).2.1) ∧
    (∀ (a b : Expr) (env : Venv) (prog : List Instr) (inp : Nat → Nat)
       (base rd : Nat) (s : MState),
      s.halted = false → s.pc = base →
      Segment prog base (compileExpr env base rd (.lor a b)) →
      (evalE (estore env s) inp a).1 ≠ 0 →
      (run prog inp ((evalE (estore env s) inp a).2.2 + 1) s).events
        = s.events ++ (evalE (estore env s) inp a).2.1) ∧
    (∀ (c a b : Expr) (env : Venv) (prog : List Instr) (inp : Nat → Nat)
       (base rd : Nat) (s : MState),
      s.halted = false → s.pc = base →
      Segment prog base (compileExpr env base rd (.tern c a b)) →
      (evalE (estore env s) inp c).1 ≠ 0 →
      (run prog inp ((evalE (estore env s) inp c).2.2 + 1
          + (evalE (estore env s) inp a).2.2 + 1) s).events
        = s.events ++ ((evalE (estore env s) inp c).2.1
          ++ (evalE (estore env s) inp a).2.1)) ∧
    (∀ (c a b : Expr) (env : Venv) (prog : List Instr) (inp : Nat → Nat)
       (base rd : Nat) (s : MState),
      s.halted = false → s.pc = base →
      Segment prog base (compileExpr env base rd (.tern c a b)) →
      (evalE (estore env s) inp c).1 = 0 →
      (run prog inp ((evalE (estore env s) inp c).2.2 + 1
          + (evalE (estore env s) inp b).2.2) s).events
        = s.events ++ ((evalE (estore env s) inp c).2.1
          ++ (evalE (estore env s) inp b).2.1)) := by
  refine ⟨?_, ?_, ?_, ?_⟩
  · intro a b env prog inp base rd s hh hpc hseg hva
    obtain ⟨-, -, -, -, -, -, hev⟩ := compileExpr_spec prog inp env (.land a b) base rd s hh hpc hseg
    simpa [evalE, hva] using hev
  · intro a b env prog inp base rd s hh hpc hseg hva
    obtain ⟨-, -, -, -, -, -, hev⟩ := compileExpr_spec prog inp env (.lor a b) base rd s hh hpc hseg
    simpa [evalE, hva] using hev
  · intro c a b env prog inp base rd s hh hpc hseg hvc
    obtain ⟨-, -, -, -, -, -, hev⟩ := compileExpr_spec prog inp env (.tern c a b) base rd s hh hpc hseg
    simpa [evalE, hvc] using hev
  · intro c a b env prog inp base rd s hh hpc hseg hvc
    obtain ⟨-, -, -, -, -, -, hev⟩ := compileExpr_spec prog inp env (.tern c a b) base rd s hh hpc hseg
    simpa [evalE, hvc] using hev

/-- Witness for C5 at `false && input(5)` with every hypothesis concrete:
the run performs no port event at all. -/
theorem claim_C5_witness :
    (initState 0).halted = false ∧ (initState 0).pc = 0 ∧
    Segment (compileExpr [] 0 0 (.land (.blit false) (.inputE 5))) 0
      (compileExpr [] 0 0 (.land (.blit false) (.inputE 5))) ∧
    (evalE (estore [] (initState 0)) (fun _ => 9) (.blit false)).1 = 0 ∧
    (run (compileExpr [] 0 0 (.land (.blit false) (.inputE 5))) (fun _ => 9)
      ((evalE (estore [] (initState 0)) (fun _ => 9) (.blit false)).2.2 + 1)
      (initState 0)).events = [] := by
  have hseg : Segment (compileExpr [] 0 0 (.land (.blit false) (.inputE 5))) 0
      (compileExpr [] 0 0 (.land (.blit false) (.inputE 5))) := by
    intro k hk
    rw [Nat.zero_add]
  refine ⟨rfl, rfl, hseg, rfl, ?_⟩
  have h := claim_C5.1 (.blit false) (.inputE 5) [] _ (fun _ => 9) 0 0 (initState 0)
    rfl rfl hseg rfl
  simpa [initState, evalE] using h

/-- C6: `bool b = true; uint8 x = b;` compiles (via the implicit
bool→uint8 conversion) and running it leaves `x` holding 1 and writes 1;
`uint8 y = 2; bool c = y;` is rejected with `TypeMismatch`; the same
assignment is accepted once an explicit cast or comparison is used; and
the conversion rule itself accepts `bool` where `uint8` is expected but
not `uint8` where `bool` is expected. -/
theorem claim_C6 :
    (compileProgram boolToU8Prog = .ok (genProgram boolToU8Prog, 0) ∧
     (∀ inp : Nat → Nat,
       (run (genProgram boolToU8Prog) inp 8
         (initState (entryPoint boolToU8Prog))).slots 1 = 1)) ∧
    checkProgram u8ToBoolProg = .error .TypeMismatch ∧
    (checkProgram [u8ToBoolCastMain] = .ok () ∧
     checkProgram [u8ToBoolCmpMain] = .ok ()) ∧
    (checkAgainst [("b", .bool)] .uint8 (.var "b") = .ok () ∧
     checkAgainst [("y", .uint8)] .bool (.var "y") = .error .TypeMismatch) := by
  exact ⟨⟨rfl, fun inp => (boolToU8Run inp).1⟩, rfl, ⟨rfl, rfl⟩, ⟨rfl, rfl⟩⟩

/-- C7: for every non-void function body, the checker accepts exactly
when every control path ends in a return — rejection is precisely the
`MissingReturn` error — and a body that is a single return statement
passes the check. -/
theorem claim_C7 :
    (∀ (rt : Ty) (s : Stmt), rt ≠ .void →
      ((checkReturnCoverage rt s = .ok () ↔ ∀ ds r, PathRun s ds r → r = true) ∧
       (checkReturnCoverage rt s ≠ .ok () →
         checkReturnCoverage rt s = .error .MissingReturn))) ∧
    checkReturnCoverage .uint8 (.ret (.bin .badd (.var "a") (.var "b"))) = .ok () := by
  refine ⟨?_, rfl⟩
  intro rt s hrt
  constructor
  · constructor
    · intro hok ds r hp
      refine pathRun_returns hp ?_
      by_contra hfalse
      have hf : stmtReturns s = false := by simpa using hfalse
      simp [checkReturnCoverage, hrt, hf] at hok
    · intro hall
      by_contra hne
      have hf : stmtReturns s = false := by
        by_contra ht
        have ht2 : stmtReturns s = true := by simpa using ht
        simp [checkReturnCoverage, hrt, ht2] at hne
      obtain ⟨ds, p⟩ := exists_path_not_returning s hf
      have hfalse := hall ds false p
      simp at hfalse
  · intro hne
    rcases hht : stmtReturns s with _ | _
    · simp [checkReturnCoverage, hrt, hht]
    · simp [checkReturnCoverage, hrt, hht] at hne

/-- Witness for C7: a non-void body whose else-branch misses a return is
rejected with exactly `MissingReturn`. -/
theorem claim_C7_witness :
    Ty.uint8 ≠ Ty.void ∧
    checkReturnCoverage .uint8 (.ifS (.blit true) (.ret (.lit 1)) .skip)
      = .error .MissingReturn := by
  refine ⟨by decide, ?_⟩
  exact (claim_C7.1 .uint8 (.ifS (.blit true) (.ret (.lit 1)) .skip)
    (by decide)).2 (by simp [checkReturnCoverage, stmtReturns])

/-- C8: `0xFF`, `255` and `0b11111111` lex to the same value 255; the
immediate a literal compiles to is exactly its lexed value (so equal
literal values emit equal immediates); and every well-formed literal
whose magnitude exceeds 8 bits is rejected at the lexing stage with
`LiteralOverflow`. -/
theorem claim_C8 :
    (lexNumber "0xFF".toList = .ok 255 ∧ lexNumber "255".toList = .ok 255 ∧
     lexNumber "0b11111111".toList = .ok 255) ∧
    (∀ (env : Venv) (base rd n : Nat),
      compileExpr env base rd (.lit n) = [.loadImm rd n]) ∧
    (∀ cs : List Char, (literalRadix cs).2 ≠ [] →
      (literalRadix cs).2.all (isRadixDigit (literalRadix cs).1) = true →
      255 < literalMagnitude cs → lexNumber cs = .error .LiteralOverflow) := by
  exact ⟨⟨rfl, rfl, rfl⟩, fun env base rd n => rfl, lexNumber_overflow⟩

/-- Witness for C8's overflow conjunct at the literal `300`. -/
theorem claim_C8_witness :
    (literalRadix "300".toList).2 ≠ [] ∧
    (literalRadix "300".toList).2.all (isRadixDigit (literalRadix "300".toList).1)
      = true ∧
    255 < literalMagnitude "300".toList ∧
    lexNumber "300".toList = .error .LiteralOverflow := by
  refine ⟨by decide, by decide, by decide, ?_⟩
  exact claim_C8.2.2 "300".toList (by decide) (by decide) (by decide)

/-- C9: port operations execute in program order.  Generally, the run of
any compiled expression appends exactly the port events of its
source-order evaluation; and the calculator run's event log, for every
input, touches ports 0, 1, 2, 3 in exactly that order — three reads then
the write. -/
theorem claim_C9 :
    (∀ (e : Expr) (env : Venv) (prog : List Instr) (inp : Nat → Nat)
       (base rd : Nat) (s : MState),
      s.halted = false → s.pc = base →
      Segment prog base (compileExpr env base rd e) →
      (run prog inp (evalE (estore env s) inp e).2.2 s).events
        = s.events ++ (evalE (estore env s) inp e).2.1) ∧
    (∀ inp : Nat → Nat,
      (calcFinal inp).events.map PEvent.port = [0, 1, 2, 3] ∧
      (calcFinal inp).events.map PEvent.isWrite = [false, false, false, true]) := by
  constructor
  · intro e env prog inp base rd s hh hpc hseg
    exact (compileExpr_spec prog inp env e base rd s hh hpc hseg).2.2.2.2.2.2
  · intro inp
    by_cases h1 : inp 2 % 256 = 1
    · rw [(calcRun1 inp h1).1]
      exact ⟨rfl, rfl⟩
    · by_cases h2 : inp 2 % 256 = 2
      · rw [(calcRun2 inp h2).1]
        exact ⟨rfl, rfl⟩
      · rw [(calcRunE inp h1 h2).1]
        exact ⟨rfl, rfl⟩

/-- Witness for C9's general conjunct: `input(0) + input(1)` logs the
two reads in source order. -/
theorem claim_C9_witness :
    (initState 0).halted = false ∧ (initState 0).pc = 0 ∧
    Segment (compileExpr [] 0 0 (.bin .badd (.inputE 0) (.inputE 1))) 0
      (compileExpr [] 0 0 (.bin .badd (.inputE 0) (.inputE 1))) ∧
    (run (compileExpr [] 0 0 (.bin .badd (.inputE 0) (.inputE 1))) (fun p => p + 5)
      (evalE (estore [] (initState 0)) (fun p => p + 5)
        (.bin .badd (.inputE 0) (.inputE 1))).2.2
      (initState 0)).events = [.readE 0 5, .readE 1 6] := by
  have hseg : Segment (compileExpr [] 0 0 (.bin .badd (.inputE 0) (.inputE 1))) 0
      (compileExpr [] 0 0 (.bin .badd (.inputE 0) (.inputE 1))) := by
    intro k hk
    rw [Nat.zero_add]
  refine ⟨rfl, rfl, hseg, ?_⟩
  have h := claim_C9.1 (.bin .badd (.inputE 0) (.inputE 1)) [] _ (fun p => p + 5)
    0 0 (initState 0) rfl rfl hseg
  simpa [initState, evalE] using h

/-- C10: the tutorial's signed addition: the compiled fragment leaves in
`result` the two's-complement byte 236, which decodes to exactly -20,
the mathematical value of -25 + 5 — no wraparound, the result being
within [-128, 127] — and the fragment type-checks as int8 code. -/
theorem claim_C10 :
    checkProgram signedAddProg = .ok () ∧
    (∀ inp : Nat → Nat,
      toInt8 ((run (genProgram signedAddProg) inp 16
        (initState (entryPoint signedAddProg))).slots 2) = -20) ∧
    (toInt8 (byteAdd (ofInt8 (-25)) (ofInt8 5)) = -25 + 5 ∧
     (-128 : Int) ≤ -25 + 5 ∧ (-25 + 5 : Int) ≤ 127) := by
  refine ⟨rfl, ?_, by decide, by norm_num, by norm_num⟩
  intro inp
  rw [(signedAddRun inp).1]
  decide

end CPU8
